import Mathlib

/-!
Verification development for the MaIS APIs Python client library
(`stanford.mais.account`, `stanford.mais.account.validate`,
`stanford.mais.workgroup`).

The Python code is shallowly embedded: the remote HTTP service is a pure
function from request to response, stateful objects become explicit state
records threaded through the operations, and raised exceptions become
error values.  Python object identity (the `is` operator) is modelled by
an allocation tag (`oid`) drawn from a monotone counter, and the number of
HTTP requests issued is tracked in a `calls` counter so that "no network
call is attempted" is expressible as "the counter is unchanged".
-/

deriving instance DecidableEq for Except

namespace StanfordMais

/-! ## Error kinds

Each constructor stands for one Python exception class raised by the
library: `ChildProcessError` (400/500 upstream failure), `PermissionError`
(401/403), `KeyError` (not found / duplicate / not present),
`WorkgroupDeleted` (a `KeyError` subclass for the soft-delete marker),
`NotImplementedError` (unrecognized response or record kind), `EOFError`
(deleted instance or dead weak reference), `ValueError` and `IndexError`
(local validation failures). -/

inductive Err where
  | childProcess
  | permission
  | keyErr
  | wgDeleted
  | notImpl
  | eofErr
  | valueErr
  | indexErr
deriving DecidableEq, Repr

/-! ## Account API: server model

`stanford/mais/account/account.py`, `Account.get`: the response to
`GET {base}/{id}` is JSON carrying the keys `id`, `name`, `description`,
`type`, `status`, `services`, `statusDateStr`.  The `statusDateStr`
timestamp parsing is abstracted into an already-parsed `Nat`; a service
sub-record is abstracted to its `name` and its decoded `is_active` flag
(the only parts `Account.get` consumes, via the `leland` service). -/

structure ServiceJson where
  name : String
  isActive : Bool
deriving DecidableEq, Repr

structure AccountJson where
  id : String
  name : String
  description : String
  type : String
  status : String
  services : List ServiceJson
  lastUpdate : Nat
deriving DecidableEq, Repr

/-- One HTTP status outcome of the account endpoint, as distinguished by
`Account.get`: 400/500 raise `ChildProcessError`, 401/403 raise
`PermissionError`, 404 raises `KeyError`, and every other status has its
body decoded as JSON. -/
inductive AResponse where
  | ok (json : AccountJson)
  | status400
  | status500
  | status401
  | status403
  | status404
deriving DecidableEq, Repr

/-- The remote account service, modelled as a pure function from the
requested identifier to the response. -/
abbrev AccountServer : Type := String → AResponse

/-! ## Account entity -/

/-- The data fields of an `Account` (dataclass in `account.py`), without
the allocation tag.  `services` decoding beyond the `is_full` computation
is not needed by any claim and is kept abstract through `is_full`. -/
structure AccountCore where
  sunetid : String
  name : String
  description : String
  is_person : Bool
  is_active : Bool
  is_full : Bool
  last_update : Nat
deriving DecidableEq, Repr

/-- A constructed `Account` instance: its fields plus an allocation tag
`oid` standing for Python object identity. -/
structure Account extends AccountCore where
  oid : Nat
deriving DecidableEq, Repr

/-- From `Account.get`: the account is full iff the (last) `leland`
service record exists and is active.  Python builds a dict keyed by
service name, so a later `leland` entry overwrites an earlier one. -/
def isFullFromServices (services : List ServiceJson) : Bool :=
  match (services.filter (fun s => s.name == "leland")).getLast? with
  | some s => s.isActive
  | none => false

/-- The pure part of `Account.get` that turns response JSON into account
fields: `type` must be `self` (person) or `functional`, otherwise
`NotImplementedError`; `is_active` is `status == "active"`. -/
def buildCore (json : AccountJson) : Except Err AccountCore :=
  if json.type == "self" then
    .ok { sunetid := json.id, name := json.name, description := json.description,
          is_person := true, is_active := json.status == "active",
          is_full := isFullFromServices json.services, last_update := json.lastUpdate }
  else if json.type == "functional" then
    .ok { sunetid := json.id, name := json.name, description := json.description,
          is_person := false, is_active := json.status == "active",
          is_full := isFullFromServices json.services, last_update := json.lastUpdate }
  else
    .error .notImpl

/-- Applies `buildCore` plus the allocation tag for the freshly constructed
instance. -/
def buildAccount (json : AccountJson) (oid : Nat) : Except Err Account :=
  (buildCore json).map (fun c => { toAccountCore := c, oid := oid })

/-! ## Account client state

`AccountClient._cache` is a `dict[str, Account]`; we model it as an
association list with the newest binding first (a Python dict insert of a
key not yet present appends; lookups here only ever see keys inserted on a
cache miss, so first-match lookup is faithful). -/

structure AState where
  cache : List (String × Account)
  counter : Nat
  calls : Nat
deriving DecidableEq, Repr

def cacheFind (cache : List (String × Account)) (k : String) : Option Account :=
  (cache.find? (fun p => p.1 == k)).map (fun p => p.2)

/-- Models `sunetid.encode(ascii)`: it succeeds iff every character is a code
point below 128. -/
def isAsciiStr (s : String) : Bool :=
  s.toList.all (fun c => c.toNat < 128)

/-- The characters of the literal suffix `@stanford.edu`. -/
def stanfordSuffix : List Char := "@stanford.edu".toList

/-- Models `sunetid.endswith(@stanford.edu)`. -/
def hasStanfordSuffix (s : String) : Bool :=
  stanfordSuffix.isSuffixOf s.toList

/-- Models `sunetid.removesuffix(@stanford.edu)` (applied only when the suffix
is present): drop the last 13 characters. -/
def stripStanfordSuffix (s : String) : String :=
  ⟨s.toList.take (s.toList.length - 13)⟩

theorem stanfordSuffix_length : stanfordSuffix.length = 13 := by decide

theorem strip_length_lt {s : String} (h : hasStanfordSuffix s = true) :
    (stripStanfordSuffix s).toList.length < s.toList.length := by
  have hsuf : stanfordSuffix <:+ s.toList := by
    simpa [hasStanfordSuffix, List.isSuffixOf_iff_suffix] using h
  have hlen : 13 ≤ s.toList.length := by
    have := hsuf.length_le
    simpa [stanfordSuffix_length] using this
  have hpos : 0 < s.toList.length := lt_of_lt_of_le (by norm_num) hlen
  simp only [stripStanfordSuffix]
  have h13 : (0 : Nat) < 13 := by norm_num
  simpa using Nat.sub_lt hpos h13

/-- Models `Account.get` (classmethod):
1. return the cached instance if the identifier is a cache hit;
2. reject a non-ASCII identifier with `ValueError`;
3. strip an `@stanford.edu` suffix and recurse;
4. otherwise issue the HTTP GET and either map the status to an error or
   construct the instance, insert it into the cache under the requested
   identifier, and return it. -/
def accountGet (srv : AccountServer) (st : AState) (sunetid : String) :
    Except Err Account × AState :=
  match cacheFind st.cache sunetid with
  | some a => (.ok a, st)
  | none =>
    if isAsciiStr sunetid = false then (.error .valueErr, st)
    else if h : hasStanfordSuffix sunetid = true then
      accountGet srv st (stripStanfordSuffix sunetid)
    else
      let st1 : AState := { st with calls := st.calls + 1 }
      match srv sunetid with
      | .status400 => (.error .childProcess, st1)
      | .status500 => (.error .childProcess, st1)
      | .status401 => (.error .permission, st1)
      | .status403 => (.error .permission, st1)
      | .status404 => (.error .keyErr, st1)
      | .ok json =>
        match buildAccount json st1.counter with
        | .error e => (.error e, st1)
        | .ok a =>
          (.ok a, { st1 with cache := (sunetid, a) :: st1.cache,
                             counter := st1.counter + 1 })
termination_by sunetid.toList.length
decreasing_by exact strip_length_lt h

/-- Cacheless specification of `Account.get`: the same identifier
normalization and response mapping, returning only the account fields.
Used to state what any (possibly cached) lookup returns. -/
def resolvePure (srv : AccountServer) (sunetid : String) : Except Err AccountCore :=
  if isAsciiStr sunetid = false then .error .valueErr
  else if h : hasStanfordSuffix sunetid = true then
    resolvePure srv (stripStanfordSuffix sunetid)
  else
    match srv sunetid with
    | .status400 => .error .childProcess
    | .status500 => .error .childProcess
    | .status401 => .error .permission
    | .status403 => .error .permission
    | .status404 => .error .keyErr
    | .ok json => buildCore json
termination_by sunetid.toList.length
decreasing_by exact strip_length_lt h

/-! ## Filtered views -/

/-- One read-filter predicate added by `only_active`, `only_inactive`,
`only_people` or `only_functional` in `account/__init__.py`. -/
inductive AFilter where
  | onlyActive
  | onlyInactive
  | onlyPeople
  | onlyFunctional
deriving DecidableEq, Repr

def AFilter.accept : AFilter → Account → Bool
  | .onlyActive, a => a.is_active
  | .onlyInactive, a => !a.is_active
  | .onlyPeople, a => a.is_person
  | .onlyFunctional, a => !a.is_person

/-- A (possibly filtered) `AccountClient` view: the accumulated filter
predicates.  The backing cache and transport are the explicit `AState`
and `AccountServer` arguments of `AccountClient.get`, which all views
derived from one client share. -/
structure AccountClient where
  filters : List AFilter
deriving DecidableEq, Repr

def AccountClient.only_active (c : AccountClient) : AccountClient :=
  { filters := c.filters ++ [.onlyActive] }

def AccountClient.only_inactive (c : AccountClient) : AccountClient :=
  { filters := c.filters ++ [.onlyInactive] }

def AccountClient.only_people (c : AccountClient) : AccountClient :=
  { filters := c.filters ++ [.onlyPeople] }

def AccountClient.only_functional (c : AccountClient) : AccountClient :=
  { filters := c.filters ++ [.onlyFunctional] }

/-- The filter loop of `AccountClient.get`: raise `KeyError` at the first
predicate that rejects the account. -/
def checkFilters (fs : List AFilter) (a : Account) : Except Err Account :=
  match fs with
  | [] => .ok a
  | f :: rest => if f.accept a then checkFilters rest a else .error .keyErr

/-- Models `AccountClient.get`: fetch through `Account.get`, then apply the
accumulated filter predicates; a rejection is a `KeyError`, as if the
account did not exist. -/
def AccountClient.get (c : AccountClient) (srv : AccountServer) (st : AState)
    (sunetid : String) : Except Err Account × AState :=
  match accountGet srv st sunetid with
  | (.error e, st') => (.error e, st')
  | (.ok a, st') => (checkFilters c.filters a, st')

/-- Models `AccountClient.clear_cache`: empty the cache; already-held references
(and the allocation counter) are unaffected. -/
def clearCache (st : AState) : AState :=
  { st with cache := [] }

/-! ## Soundness of the caching lookup

Every cache entry was inserted from a server response, so a well-formed
cache agrees with the cacheless resolution `resolvePure`, and every
cached instance carries an allocation tag below the counter. -/

def CacheWF (srv : AccountServer) (st : AState) : Prop :=
  ∀ k a, cacheFind st.cache k = some a →
    resolvePure srv k = .ok a.toAccountCore ∧ a.oid < st.counter

theorem cacheWF_nil (srv : AccountServer) (counter calls : Nat) :
    CacheWF srv { cache := [], counter := counter, calls := calls } := by
  intro k a h
  simp [cacheFind] at h

theorem cacheWF_clearCache (srv : AccountServer) (st : AState) :
    CacheWF srv (clearCache st) := by
  intro k a h
  simp [clearCache, cacheFind] at h

theorem cacheFind_cons (k0 : String) (a0 : Account) (rest : List (String × Account))
    (k : String) :
    cacheFind ((k0, a0) :: rest) k = if k0 = k then some a0 else cacheFind rest k := by
  by_cases h : k0 = k <;> simp [cacheFind, List.find?_cons, h]

theorem buildAccount_ok {json : AccountJson} {n : Nat} {a : Account} :
    buildAccount json n = .ok a ↔ buildCore json = .ok a.toAccountCore ∧ a.oid = n := by
  obtain ⟨core, oid⟩ := a
  cases h : buildCore json <;>
    simp [buildAccount, h, Except.map, Account.mk.injEq, and_comm, eq_comm]

theorem buildAccount_err {json : AccountJson} {n : Nat} {e : Err} :
    buildAccount json n = .error e ↔ buildCore json = .error e := by
  cases h : buildCore json <;> simp [buildAccount, h, Except.map]

/-- Master soundness lemma for successful lookups: the returned instance
matches the cacheless resolution, well-formedness is preserved, the
counter is monotone, the instance is reachable in the resulting cache
(under the requested key itself when that key is in canonical form), and
at most one new cache binding is created. -/
theorem accountGet_ok_spec (srv : AccountServer) (st : AState) (hwf : CacheWF srv st) :
    ∀ id a st', accountGet srv st id = (.ok a, st') →
      resolvePure srv id = .ok a.toAccountCore ∧ CacheWF srv st' ∧
      a.oid < st'.counter ∧ st.counter ≤ st'.counter ∧
      (∃ k, cacheFind st'.cache k = some a) ∧
      (hasStanfordSuffix id = false → cacheFind st'.cache id = some a) ∧
      (st'.cache = st.cache ∨
        ∃ k b, hasStanfordSuffix k = false ∧ cacheFind st.cache k = none ∧
          st'.cache = (k, b) :: st.cache) := by
  intro id
  induction id using accountGet.induct srv st with
  | case1 x a0 hhit =>
    intro a st' hrun
    rw [accountGet] at hrun
    simp only [hhit, Prod.mk.injEq, Except.ok.injEq] at hrun
    obtain ⟨rfl, rfl⟩ := hrun
    obtain ⟨hres, hoid⟩ := hwf x a0 hhit
    refine ⟨hres, hwf, hoid, le_refl _, ⟨x, hhit⟩, fun _ => hhit, Or.inl rfl⟩
  | case2 x hmiss hascii =>
    intro a st' hrun
    rw [accountGet] at hrun
    simp [hmiss, hascii] at hrun
  | case3 x hmiss hascii hsuf ih =>
    intro a st' hrun
    rw [accountGet] at hrun
    simp only [hmiss, hascii, hsuf, dite_true, if_false] at hrun
    obtain ⟨hres, hwf', hoid, hcnt, hreach, _, hext⟩ := ih a st' hrun
    refine ⟨?_, hwf', hoid, hcnt, hreach, ?_, hext⟩
    · rw [resolvePure]
      simp only [hascii, hsuf, dite_true, if_false]
      exact hres
    · intro hcontra
      rw [hcontra] at hsuf
      exact absurd hsuf (by simp)
  | case4 x hmiss hascii hsuf hsrv =>
    intro a st' hrun
    rw [accountGet] at hrun
    simp [hmiss, hascii, hsuf, hsrv] at hrun
  | case5 x hmiss hascii hsuf hsrv =>
    intro a st' hrun
    rw [accountGet] at hrun
    simp [hmiss, hascii, hsuf, hsrv] at hrun
  | case6 x hmiss hascii hsuf hsrv =>
    intro a st' hrun
    rw [accountGet] at hrun
    simp [hmiss, hascii, hsuf, hsrv] at hrun
  | case7 x hmiss hascii hsuf hsrv =>
    intro a st' hrun
    rw [accountGet] at hrun
    simp [hmiss, hascii, hsuf, hsrv] at hrun
  | case8 x hmiss hascii hsuf hsrv =>
    intro a st' hrun
    rw [accountGet] at hrun
    simp [hmiss, hascii, hsuf, hsrv] at hrun
  | case9 x hmiss hascii hsuf st1 json hsrv e hbuild =>
    intro a st' hrun
    rw [accountGet] at hrun
    simp [hmiss, hascii, hsuf, hsrv, hbuild] at hrun
  | case10 x hmiss hascii hsuf st1 json hsrv a0 hbuild =>
    intro a st' hrun
    rw [accountGet] at hrun
    simp only [hmiss, hascii, hsuf, hsrv, hbuild, dite_true, if_false,
      Prod.mk.injEq, Except.ok.injEq] at hrun
    obtain ⟨rfl, rfl⟩ := hrun
    obtain ⟨hcore, hoid0⟩ := buildAccount_ok.mp hbuild
    have hoid : a0.oid = st.counter := hoid0
    have hsufx : hasStanfordSuffix x = false := by
      cases hx : hasStanfordSuffix x
      · rfl
      · exact absurd hx hsuf
    have hres : resolvePure srv x = .ok a0.toAccountCore := by
      rw [resolvePure]
      simp only [hascii, hsuf, dite_true, if_false, hsrv]
      exact hcore
    refine ⟨hres, ?_, ?_, ?_, ?_, ?_, ?_⟩
    · intro k b hfind
      rw [cacheFind_cons] at hfind
      by_cases hk : x = k
      · subst hk
        simp only [if_true, Option.some.injEq] at hfind
        subst hfind
        refine ⟨hres, ?_⟩
        show a0.oid < st.counter + 1
        omega
      · rw [if_neg hk] at hfind
        obtain ⟨hres2, hoid2⟩ := hwf k b hfind
        refine ⟨hres2, ?_⟩
        show b.oid < st.counter + 1
        omega
    · show a0.oid < st.counter + 1
      omega
    · show st.counter ≤ st.counter + 1
      omega
    · exact ⟨x, by rw [cacheFind_cons, if_pos rfl]⟩
    · intro _
      rw [cacheFind_cons, if_pos rfl]
    · exact Or.inr ⟨x, a0, hsufx, hmiss, rfl⟩

/-- Master soundness lemma for failed lookups: the error matches the
cacheless resolution, and neither the cache nor the allocation counter
is touched. -/
theorem accountGet_err_spec (srv : AccountServer) (st : AState) :
    ∀ id e st', accountGet srv st id = (.error e, st') →
      resolvePure srv id = .error e ∧ st'.cache = st.cache ∧ st'.counter = st.counter := by
  intro id
  induction id using accountGet.induct srv st with
  | case1 x a0 hhit =>
    intro e st' hrun
    rw [accountGet] at hrun
    simp [hhit] at hrun
  | case2 x hmiss hascii =>
    intro e st' hrun
    rw [accountGet] at hrun
    simp only [hmiss, hascii, Prod.mk.injEq, Except.error.injEq, if_true] at hrun
    obtain ⟨rfl, rfl⟩ := hrun
    exact ⟨by rw [resolvePure]; simp [hascii], rfl, rfl⟩
  | case3 x hmiss hascii hsuf ih =>
    intro e st' hrun
    rw [accountGet] at hrun
    simp only [hmiss, hascii, hsuf, dite_true, if_false] at hrun
    obtain ⟨hres, hc, hn⟩ := ih e st' hrun
    refine ⟨?_, hc, hn⟩
    rw [resolvePure]
    simp only [hascii, hsuf, dite_true, if_false]
    exact hres
  | case4 x hmiss hascii hsuf hsrv =>
    intro e st' hrun
    rw [accountGet] at hrun
    simp only [hmiss, hascii, hsuf, hsrv, dite_true, if_false,
      Prod.mk.injEq, Except.error.injEq] at hrun
    obtain ⟨rfl, rfl⟩ := hrun
    exact ⟨by rw [resolvePure]; simp [hascii, hsuf, hsrv], rfl, rfl⟩
  | case5 x hmiss hascii hsuf hsrv =>
    intro e st' hrun
    rw [accountGet] at hrun
    simp only [hmiss, hascii, hsuf, hsrv, dite_true, if_false,
      Prod.mk.injEq, Except.error.injEq] at hrun
    obtain ⟨rfl, rfl⟩ := hrun
    exact ⟨by rw [resolvePure]; simp [hascii, hsuf, hsrv], rfl, rfl⟩
  | case6 x hmiss hascii hsuf hsrv =>
    intro e st' hrun
    rw [accountGet] at hrun
    simp only [hmiss, hascii, hsuf, hsrv, dite_true, if_false,
      Prod.mk.injEq, Except.error.injEq] at hrun
    obtain ⟨rfl, rfl⟩ := hrun
    exact ⟨by rw [resolvePure]; simp [hascii, hsuf, hsrv], rfl, rfl⟩
  | case7 x hmiss hascii hsuf hsrv =>
    intro e st' hrun
    rw [accountGet] at hrun
    simp only [hmiss, hascii, hsuf, hsrv, dite_true, if_false,
      Prod.mk.injEq, Except.error.injEq] at hrun
    obtain ⟨rfl, rfl⟩ := hrun
    exact ⟨by rw [resolvePure]; simp [hascii, hsuf, hsrv], rfl, rfl⟩
  | case8 x hmiss hascii hsuf hsrv =>
    intro e st' hrun
    rw [accountGet] at hrun
    simp only [hmiss, hascii, hsuf, hsrv, dite_true, if_false,
      Prod.mk.injEq, Except.error.injEq] at hrun
    obtain ⟨rfl, rfl⟩ := hrun
    exact ⟨by rw [resolvePure]; simp [hascii, hsuf, hsrv], rfl, rfl⟩
  | case9 x hmiss hascii hsuf st1 json hsrv e0 hbuild =>
    intro e st' hrun
    rw [accountGet] at hrun
    simp only [hmiss, hascii, hsuf, hsrv, hbuild, dite_true, if_false,
      Prod.mk.injEq, Except.error.injEq] at hrun
    obtain ⟨rfl, rfl⟩ := hrun
    refine ⟨?_, rfl, rfl⟩
    rw [resolvePure]
    simp only [hascii, hsuf, dite_true, if_false, hsrv]
    exact buildAccount_err.mp hbuild
  | case10 x hmiss hascii hsuf st1 json hsrv a0 hbuild =>
    intro e st' hrun
    rw [accountGet] at hrun
    simp [hmiss, hascii, hsuf, hsrv, hbuild] at hrun

/-- A successful lookup creates at most one new cache binding, and that
binding is under a canonical-form (suffix-free) key that was not yet
cached. -/
theorem accountGet_cache_growth (srv : AccountServer) (st : AState) :
    ∀ id a st', accountGet srv st id = (.ok a, st') →
      st'.cache = st.cache ∨
        ∃ k b, hasStanfordSuffix k = false ∧ cacheFind st.cache k = none ∧
          st'.cache = (k, b) :: st.cache := by
  intro id
  induction id using accountGet.induct srv st with
  | case1 x a0 hhit =>
    intro a st' hrun
    rw [accountGet] at hrun
    simp only [hhit, Prod.mk.injEq, Except.ok.injEq] at hrun
    obtain ⟨rfl, rfl⟩ := hrun
    exact Or.inl rfl
  | case2 x hmiss hascii =>
    intro a st' hrun
    rw [accountGet] at hrun
    simp [hmiss, hascii] at hrun
  | case3 x hmiss hascii hsuf ih =>
    intro a st' hrun
    rw [accountGet] at hrun
    simp only [hmiss, hascii, hsuf, dite_true, if_false] at hrun
    exact ih a st' hrun
  | case4 x hmiss hascii hsuf hsrv =>
    intro a st' hrun
    rw [accountGet] at hrun
    simp [hmiss, hascii, hsuf, hsrv] at hrun
  | case5 x hmiss hascii hsuf hsrv =>
    intro a st' hrun
    rw [accountGet] at hrun
    simp [hmiss, hascii, hsuf, hsrv] at hrun
  | case6 x hmiss hascii hsuf hsrv =>
    intro a st' hrun
    rw [accountGet] at hrun
    simp [hmiss, hascii, hsuf, hsrv] at hrun
  | case7 x hmiss hascii hsuf hsrv =>
    intro a st' hrun
    rw [accountGet] at hrun
    simp [hmiss, hascii, hsuf, hsrv] at hrun
  | case8 x hmiss hascii hsuf hsrv =>
    intro a st' hrun
    rw [accountGet] at hrun
    simp [hmiss, hascii, hsuf, hsrv] at hrun
  | case9 x hmiss hascii hsuf st1 json hsrv e hbuild =>
    intro a st' hrun
    rw [accountGet] at hrun
    simp [hmiss, hascii, hsuf, hsrv, hbuild] at hrun
  | case10 x hmiss hascii hsuf st1 json hsrv a0 hbuild =>
    intro a st' hrun
    rw [accountGet] at hrun
    simp only [hmiss, hascii, hsuf, hsrv, hbuild, dite_true, if_false,
      Prod.mk.injEq, Except.ok.injEq] at hrun
    obtain ⟨rfl, rfl⟩ := hrun
    have hsufx : hasStanfordSuffix x = false := by
      cases hx : hasStanfordSuffix x
      · rfl
      · exact absurd hx hsuf
    exact Or.inr ⟨x, a0, hsufx, hmiss, rfl⟩

/-- Looking a successful identifier up a second time returns the
identical cached instance and leaves the state untouched. -/
theorem accountGet_idem (srv : AccountServer) (st : AState) :
    ∀ id a st', accountGet srv st id = (.ok a, st') →
      accountGet srv st' id = (.ok a, st') := by
  intro id
  induction id using accountGet.induct srv st with
  | case1 x a0 hhit =>
    intro a st' hrun
    rw [accountGet] at hrun
    simp only [hhit, Prod.mk.injEq, Except.ok.injEq] at hrun
    obtain ⟨rfl, rfl⟩ := hrun
    rw [accountGet]
    simp [hhit]
  | case2 x hmiss hascii =>
    intro a st' hrun
    rw [accountGet] at hrun
    simp [hmiss, hascii] at hrun
  | case3 x hmiss hascii hsuf ih =>
    intro a st' hrun
    rw [accountGet] at hrun
    simp only [hmiss, hascii, hsuf, dite_true, if_false] at hrun
    have hmiss' : cacheFind st'.cache x = none := by
      rcases (accountGet_cache_growth srv st (stripStanfordSuffix x) a st' hrun) with hsame | ⟨k, b, hkfree, _, hcons⟩
      · rw [hsame]
        exact hmiss
      · rw [hcons, cacheFind_cons]
        have hne : k ≠ x := by
          intro heq
          rw [heq] at hkfree
          rw [hkfree] at hsuf
          exact absurd hsuf (by simp)
        rw [if_neg hne]
        exact hmiss
    have := ih a st' hrun
    rw [accountGet]
    simp only [hmiss', hascii, hsuf, dite_true, if_false]
    exact this
  | case4 x hmiss hascii hsuf hsrv =>
    intro a st' hrun
    rw [accountGet] at hrun
    simp [hmiss, hascii, hsuf, hsrv] at hrun
  | case5 x hmiss hascii hsuf hsrv =>
    intro a st' hrun
    rw [accountGet] at hrun
    simp [hmiss, hascii, hsuf, hsrv] at hrun
  | case6 x hmiss hascii hsuf hsrv =>
    intro a st' hrun
    rw [accountGet] at hrun
    simp [hmiss, hascii, hsuf, hsrv] at hrun
  | case7 x hmiss hascii hsuf hsrv =>
    intro a st' hrun
    rw [accountGet] at hrun
    simp [hmiss, hascii, hsuf, hsrv] at hrun
  | case8 x hmiss hascii hsuf hsrv =>
    intro a st' hrun
    rw [accountGet] at hrun
    simp [hmiss, hascii, hsuf, hsrv] at hrun
  | case9 x hmiss hascii hsuf st1 json hsrv e hbuild =>
    intro a st' hrun
    rw [accountGet] at hrun
    simp [hmiss, hascii, hsuf, hsrv, hbuild] at hrun
  | case10 x hmiss hascii hsuf st1 json hsrv a0 hbuild =>
    intro a st' hrun
    rw [accountGet] at hrun
    simp only [hmiss, hascii, hsuf, hsrv, hbuild, dite_true, if_false,
      Prod.mk.injEq, Except.ok.injEq] at hrun
    obtain ⟨rfl, rfl⟩ := hrun
    rw [accountGet]
    simp [cacheFind_cons]

/-- With an empty cache, a successful lookup allocates a fresh instance:
its tag is at least the current counter. -/
theorem accountGet_fresh_oid (srv : AccountServer) (st : AState) (hnil : st.cache = []) :
    ∀ id a st', accountGet srv st id = (.ok a, st') → st.counter ≤ a.oid := by
  intro id
  induction id using accountGet.induct srv st with
  | case1 x a0 hhit =>
    intro a st' hrun
    rw [hnil] at hhit
    simp [cacheFind] at hhit
  | case2 x hmiss hascii =>
    intro a st' hrun
    rw [accountGet] at hrun
    simp [hmiss, hascii] at hrun
  | case3 x hmiss hascii hsuf ih =>
    intro a st' hrun
    rw [accountGet] at hrun
    simp only [hmiss, hascii, hsuf, dite_true, if_false] at hrun
    exact ih a st' hrun
  | case4 x hmiss hascii hsuf hsrv =>
    intro a st' hrun
    rw [accountGet] at hrun
    simp [hmiss, hascii, hsuf, hsrv] at hrun
  | case5 x hmiss hascii hsuf hsrv =>
    intro a st' hrun
    rw [accountGet] at hrun
    simp [hmiss, hascii, hsuf, hsrv] at hrun
  | case6 x hmiss hascii hsuf hsrv =>
    intro a st' hrun
    rw [accountGet] at hrun
    simp [hmiss, hascii, hsuf, hsrv] at hrun
  | case7 x hmiss hascii hsuf hsrv =>
    intro a st' hrun
    rw [accountGet] at hrun
    simp [hmiss, hascii, hsuf, hsrv] at hrun
  | case8 x hmiss hascii hsuf hsrv =>
    intro a st' hrun
    rw [accountGet] at hrun
    simp [hmiss, hascii, hsuf, hsrv] at hrun
  | case9 x hmiss hascii hsuf st1 json hsrv e hbuild =>
    intro a st' hrun
    rw [accountGet] at hrun
    simp [hmiss, hascii, hsuf, hsrv, hbuild] at hrun
  | case10 x hmiss hascii hsuf st1 json hsrv a0 hbuild =>
    intro a st' hrun
    rw [accountGet] at hrun
    simp only [hmiss, hascii, hsuf, hsrv, hbuild, dite_true, if_false,
      Prod.mk.injEq, Except.ok.injEq] at hrun
    obtain ⟨rfl, rfl⟩ := hrun
    obtain ⟨_, hoid0⟩ := buildAccount_ok.mp hbuild
    have hoid : a0.oid = st.counter := hoid0
    omega

/-- A canonical-form (suffix-free) identifier that was looked up
successfully is afterwards present in the cache under its own key. -/
theorem accountGet_cached_self (srv : AccountServer) (st : AState) :
    ∀ id a st', hasStanfordSuffix id = false → accountGet srv st id = (.ok a, st') →
      cacheFind st'.cache id = some a := by
  intro id
  induction id using accountGet.induct srv st with
  | case1 x a0 hhit =>
    intro a st' _ hrun
    rw [accountGet] at hrun
    simp only [hhit, Prod.mk.injEq, Except.ok.injEq] at hrun
    obtain ⟨rfl, rfl⟩ := hrun
    exact hhit
  | case2 x hmiss hascii =>
    intro a st' _ hrun
    rw [accountGet] at hrun
    simp [hmiss, hascii] at hrun
  | case3 x hmiss hascii hsuf ih =>
    intro a st' hnosuf hrun
    rw [hnosuf] at hsuf
    exact absurd hsuf (by simp)
  | case4 x hmiss hascii hsuf hsrv =>
    intro a st' _ hrun
    rw [accountGet] at hrun
    simp [hmiss, hascii, hsuf, hsrv] at hrun
  | case5 x hmiss hascii hsuf hsrv =>
    intro a st' _ hrun
    rw [accountGet] at hrun
    simp [hmiss, hascii, hsuf, hsrv] at hrun
  | case6 x hmiss hascii hsuf hsrv =>
    intro a st' _ hrun
    rw [accountGet] at hrun
    simp [hmiss, hascii, hsuf, hsrv] at hrun
  | case7 x hmiss hascii hsuf hsrv =>
    intro a st' _ hrun
    rw [accountGet] at hrun
    simp [hmiss, hascii, hsuf, hsrv] at hrun
  | case8 x hmiss hascii hsuf hsrv =>
    intro a st' _ hrun
    rw [accountGet] at hrun
    simp [hmiss, hascii, hsuf, hsrv] at hrun
  | case9 x hmiss hascii hsuf st1 json hsrv e hbuild =>
    intro a st' _ hrun
    rw [accountGet] at hrun
    simp [hmiss, hascii, hsuf, hsrv, hbuild] at hrun
  | case10 x hmiss hascii hsuf st1 json hsrv a0 hbuild =>
    intro a st' _ hrun
    rw [accountGet] at hrun
    simp only [hmiss, hascii, hsuf, hsrv, hbuild, dite_true, if_false,
      Prod.mk.injEq, Except.ok.injEq] at hrun
    obtain ⟨rfl, rfl⟩ := hrun
    rw [cacheFind_cons, if_pos rfl]

/-! ## Claim-level lemmas for the client wrapper -/

theorem checkFilters_eq_all (fs : List AFilter) (a : Account) :
    checkFilters fs a =
      if fs.all (fun f => f.accept a) then .ok a else .error .keyErr := by
  induction fs with
  | nil => simp [checkFilters]
  | cons f rest ih =>
    by_cases h : f.accept a <;> simp [checkFilters, h, ih]

theorem clientGet_nofilters (srv : AccountServer) (st : AState) (id : String) :
    AccountClient.get ⟨[]⟩ srv st id = accountGet srv st id := by
  unfold AccountClient.get
  rcases h : accountGet srv st id with ⟨r, s⟩
  cases r <;> simp [checkFilters]

/-- C8.  For every valid identifier looked up through an unfiltered
`AccountClient` over a well-formed cache, a second `get` of the same
identifier returns the identical instance (same allocation tag) with the
state untouched; after `clear_cache`, a fresh `get` returns a
non-identical instance (different allocation tag) whose field values
equal the original ones. -/
theorem claim_C8_cache_identity (srv : AccountServer) (st : AState) (id : String)
    (a : Account) (st' : AState) (hwf : CacheWF srv st)
    (hget : AccountClient.get ⟨[]⟩ srv st id = (.ok a, st')) :
    AccountClient.get ⟨[]⟩ srv st' id = (.ok a, st') ∧
    ∃ a2 st2, AccountClient.get ⟨[]⟩ srv (clearCache st') id = (.ok a2, st2) ∧
      a2.toAccountCore = a.toAccountCore ∧ a2.oid ≠ a.oid := by
  rw [clientGet_nofilters] at hget
  constructor
  · rw [clientGet_nofilters]
    exact accountGet_idem srv st id a st' hget
  · obtain ⟨hres, hwf', hoid, _, _, _, _⟩ := accountGet_ok_spec srv st hwf id a st' hget
    rcases hrun : accountGet srv (clearCache st') id with ⟨r, st2⟩
    cases r with
    | error e =>
      exfalso
      obtain ⟨hres2, _, _⟩ := accountGet_err_spec srv (clearCache st') id e st2 hrun
      rw [hres] at hres2
      exact absurd hres2 (by simp)
    | ok a2 =>
      obtain ⟨hres2, _, _, _, _, _, _⟩ :=
        accountGet_ok_spec srv (clearCache st') (cacheWF_clearCache srv st') id a2 st2 hrun
      have hcore : a2.toAccountCore = a.toAccountCore := by
        rw [hres] at hres2
        injection hres2 with h1
        exact h1.symm
      have hfresh : (clearCache st').counter ≤ a2.oid :=
        accountGet_fresh_oid srv (clearCache st') rfl id a2 st2 hrun
      have hcnt : (clearCache st').counter = st'.counter := rfl
      refine ⟨a2, st2, ?_, hcore, ?_⟩
      · rw [clientGet_nofilters]
        exact hrun
      · omega

/-- C9.  Stacking the two read filters in either order —
`only_active().only_people()` or `only_people().only_active()` — yields
views whose `get` has identical outcome (and identical resulting state)
on every identifier: the accepted identifiers coincide and an accepted
lookup returns the same instance. -/
theorem checkFilters_pair_comm (fs : List AFilter) (f g : AFilter) (a : Account) :
    checkFilters (fs ++ [f, g]) a = checkFilters (fs ++ [g, f]) a := by
  rw [checkFilters_eq_all, checkFilters_eq_all]
  have hall : (fs ++ [f, g]).all (fun x => x.accept a) =
      (fs ++ [g, f]).all (fun x => x.accept a) := by
    simp only [List.all_append, List.all_cons, List.all_nil]
    cases f.accept a <;> cases g.accept a <;> simp
  rw [hall]

theorem claim_C9_filter_stacking_commutes (c : AccountClient) (srv : AccountServer)
    (st : AState) (id : String) :
    (c.only_active.only_people).get srv st id =
      (c.only_people.only_active).get srv st id := by
  unfold AccountClient.get
  rcases h : accountGet srv st id with ⟨r, s⟩
  cases r with
  | error e => rfl
  | ok a =>
    simp only [AccountClient.only_active, AccountClient.only_people, List.append_assoc]
    rw [show ([AFilter.onlyActive] ++ [AFilter.onlyPeople]) =
        [AFilter.onlyActive, AFilter.onlyPeople] from rfl,
      show ([AFilter.onlyPeople] ++ [AFilter.onlyActive]) =
        [AFilter.onlyPeople, AFilter.onlyActive] from rfl,
      checkFilters_pair_comm]

/-- C10.  When a `get` on a filtered view finds an account that then
fails a filter predicate, the call reports `KeyError`, yet the fetched
instance is already in the shared backing cache: the resulting state
keeps it (under the identifier itself when the identifier is in
canonical form), and a subsequent `get` of the same identifier through
the unfiltered parent client returns that very instance — with the state
(including the request counter) unchanged, i.e. with no new network
fetch. -/
theorem claim_C10_filter_reject_caches (srv : AccountServer) (fs : List AFilter)
    (st : AState) (id : String) (a : Account) (st' : AState)
    (hget : accountGet srv st id = (.ok a, st'))
    (hrej : fs.all (fun f => f.accept a) = false) :
    AccountClient.get ⟨fs⟩ srv st id = (.error .keyErr, st') ∧
    (hasStanfordSuffix id = false → cacheFind st'.cache id = some a) ∧
    AccountClient.get ⟨[]⟩ srv st' id = (.ok a, st') := by
  refine ⟨?_, ?_, ?_⟩
  · unfold AccountClient.get
    rw [hget]
    simp only [checkFilters_eq_all, hrej]
    simp
  · intro hns
    exact accountGet_cached_self srv st id a st' hns hget
  · rw [clientGet_nofilters]
    exact accountGet_idem srv st id a st' hget

/-! ## Batch classifier (`account/validate.py`) -/

/-- Results of an account validation (`AccountValidationResults`).  The
collections are modelled as finite sets of identifiers. -/
structure AccountValidationResults where
  raw : Option String
  raw_set : Finset String
  full : Finset String
  base : Finset String
  inactive : Finset String
  unknown : Finset String
deriving DecidableEq

/-- The exception kinds absorbed per item by `_validate`: `ValueError`,
`IndexError`, `KeyError` (the `except` clause); any other kind
propagates. -/
def caughtByValidate : Err → Bool
  | .valueErr => true
  | .indexErr => true
  | .keyErr => true
  | _ => false

/-- The four output collections of `_validate` while it is looping. -/
abbrev Buckets : Type := Finset String × Finset String × Finset String × Finset String

def bUnion (b : Buckets) : Finset String := b.1 ∪ b.2.1 ∪ b.2.2.1 ∪ b.2.2.2

def bDisj (b : Buckets) : Prop :=
  Disjoint b.1 b.2.1 ∧ Disjoint b.1 b.2.2.1 ∧ Disjoint b.1 b.2.2.2 ∧
  Disjoint b.2.1 b.2.2.1 ∧ Disjoint b.2.1 b.2.2.2 ∧ Disjoint b.2.2.1 b.2.2.2

/-- The per-candidate loop of `_validate`: look the candidate up through
the people-only view; an absorbed failure sends the raw candidate to
`unknown`; on success the candidate is overwritten with the normalized
`account.sunetid` and sorted into `inactive`, `full` or `base`. -/
def validateLoop (srv : AccountServer) (people : AccountClient) :
    List String → AState → Buckets → Except Err (Buckets × AState)
  | [], st, b => .ok (b, st)
  | sunetid :: rest, st, b =>
    match people.get srv st sunetid with
    | (.error e, st') =>
      if caughtByValidate e then
        validateLoop srv people rest st' ⟨b.1, b.2.1, b.2.2.1, insert sunetid b.2.2.2⟩
      else
        .error e
    | (.ok account, st') =>
      if account.is_active = false then
        validateLoop srv people rest st' ⟨b.1, b.2.1, insert account.sunetid b.2.2.1, b.2.2.2⟩
      else if account.is_full then
        validateLoop srv people rest st' ⟨insert account.sunetid b.1, b.2.1, b.2.2.1, b.2.2.2⟩
      else
        validateLoop srv people rest st' ⟨b.1, insert account.sunetid b.2.1, b.2.2.1, b.2.2.2⟩

/-- Models `_validate`: loop over the (de-duplicated) candidate set, starting
from empty output sets; `raw_set` is the candidate set itself. -/
def validateCore (srv : AccountServer) (client : AccountClient) (st : AState)
    (sunetids : List String) : Except Err (AccountValidationResults × AState) :=
  match validateLoop srv client.only_people sunetids st ⟨∅, ∅, ∅, ∅⟩ with
  | .error e => .error e
  | .ok (b, st') =>
    .ok ({ raw := none, raw_set := sunetids.toFinset, full := b.1, base := b.2.1,
           inactive := b.2.2.1, unknown := b.2.2.2 }, st')

/-- The list/tuple/set/frozenset entry point of `validate`: the input is
converted to a set (candidates de-duplicated) and handed to `_validate`;
the result keeps `raw = None`. -/
def validateOfList (srv : AccountServer) (client : AccountClient) (st : AState)
    (ids : List String) : Except Err (AccountValidationResults × AState) :=
  validateCore srv client st ids.dedup

/-- The whitespace classes of the `re.split` pattern in `validate`:
space, tab, newline, carriage return, vertical tab, form feed (the
classes named in the docstring). -/
def pySpaceChar (c : Char) : Bool :=
  c == ' ' || c == '\t' || c == '\n' || c == '\r' || c.toNat == 11 || c.toNat == 12

/-- The string entry point of `validate`: split on whitespace and comma
(consecutive separators produce empty entries), discard empties,
de-duplicate, run `_validate`, and record the raw input string. -/
def validateOfString (srv : AccountServer) (client : AccountClient) (st : AState)
    (raw : String) : Except Err (AccountValidationResults × AState) :=
  let raw_list := raw.split (fun c => pySpaceChar c || c == ',')
  let raw_list_filtered := (raw_list.filter (fun s => 0 < s.length)).dedup
  match validateCore srv client st raw_list_filtered with
  | .error e => .error e
  | .ok (r, st') => .ok ({ r with raw := some raw }, st')

/-- A candidate whose cacheless resolution succeeds resolves to its own
canonical form (no alias-qualified candidates). -/
def canonPreserving (srv : AccountServer) (c : String) : Bool :=
  match resolvePure srv c with
  | .ok y => y.sunetid == c
  | .error _ => true

theorem cacheWF_of_untouched {srv : AccountServer} {st st' : AState}
    (hwf : CacheWF srv st) (hc : st'.cache = st.cache) (hn : st'.counter = st.counter) :
    CacheWF srv st' := by
  intro k a h
  rw [hc] at h
  rw [hn]
  exact hwf k a h

theorem clientGet_ok_elim {c : AccountClient} {srv : AccountServer} {st : AState}
    {id : String} {account : Account} {st₁ : AState}
    (h : c.get srv st id = (.ok account, st₁)) :
    accountGet srv st id = (.ok account, st₁) := by
  unfold AccountClient.get at h
  rcases hag : accountGet srv st id with ⟨r₀, s₀⟩
  rw [hag] at h
  cases r₀ with
  | error e => simp at h
  | ok a =>
    dsimp only at h
    rw [checkFilters_eq_all] at h
    by_cases hall : (c.filters.all fun f => f.accept a) = true
    · rw [if_pos hall] at h
      simp only [Prod.mk.injEq, Except.ok.injEq] at h
      obtain ⟨rfl, rfl⟩ := h
      rfl
    · rw [if_neg hall] at h
      simp at h

theorem clientGet_err_wf {c : AccountClient} {srv : AccountServer} {st : AState}
    {id : String} {e : Err} {st₁ : AState} (hwf : CacheWF srv st)
    (h : c.get srv st id = (.error e, st₁)) : CacheWF srv st₁ := by
  unfold AccountClient.get at h
  rcases hag : accountGet srv st id with ⟨r₀, s₀⟩
  rw [hag] at h
  cases r₀ with
  | error e₀ =>
    simp only [Prod.mk.injEq, Except.error.injEq] at h
    obtain ⟨he, hs⟩ := h
    obtain ⟨_, hc, hn⟩ := accountGet_err_spec srv st id e₀ s₀ hag
    exact cacheWF_of_untouched hwf (hs ▸ hc) (hs ▸ hn)
  | ok a =>
    dsimp only at h
    rw [checkFilters_eq_all] at h
    by_cases hall : (c.filters.all fun f => f.accept a) = true
    · rw [if_pos hall] at h
      simp at h
    · rw [if_neg hall] at h
      simp only [Prod.mk.injEq, Except.error.injEq] at h
      obtain ⟨he, hs⟩ := h
      obtain ⟨_, hwf', _, _, _, _, _⟩ := accountGet_ok_spec srv st hwf id a s₀ hag
      exact hs ▸ hwf'

theorem bUnion_insert_full (b : Buckets) (c : String) :
    bUnion ⟨insert c b.1, b.2.1, b.2.2.1, b.2.2.2⟩ = insert c (bUnion b) := by
  ext x
  simp [bUnion]

theorem bUnion_insert_base (b : Buckets) (c : String) :
    bUnion ⟨b.1, insert c b.2.1, b.2.2.1, b.2.2.2⟩ = insert c (bUnion b) := by
  ext x
  simp [bUnion]

theorem bUnion_insert_inactive (b : Buckets) (c : String) :
    bUnion ⟨b.1, b.2.1, insert c b.2.2.1, b.2.2.2⟩ = insert c (bUnion b) := by
  ext x
  simp [bUnion]

theorem bUnion_insert_unknown (b : Buckets) (c : String) :
    bUnion ⟨b.1, b.2.1, b.2.2.1, insert c b.2.2.2⟩ = insert c (bUnion b) := by
  ext x
  simp [bUnion]

theorem bFresh_parts {b : Buckets} {c : String} (hf : c ∉ bUnion b) :
    c ∉ b.1 ∧ c ∉ b.2.1 ∧ c ∉ b.2.2.1 ∧ c ∉ b.2.2.2 := by
  simp only [bUnion, Finset.mem_union, not_or] at hf
  tauto

theorem bDisj_insert_full {b : Buckets} {c : String} (hd : bDisj b) (hf : c ∉ bUnion b) :
    bDisj ⟨insert c b.1, b.2.1, b.2.2.1, b.2.2.2⟩ := by
  obtain ⟨h1, h2, h3, h4⟩ := bFresh_parts hf
  obtain ⟨d1, d2, d3, d4, d5, d6⟩ := hd
  exact ⟨by simp [Finset.disjoint_insert_left, h2, d1],
         by simp [Finset.disjoint_insert_left, h3, d2],
         by simp [Finset.disjoint_insert_left, h4, d3], d4, d5, d6⟩

theorem bDisj_insert_base {b : Buckets} {c : String} (hd : bDisj b) (hf : c ∉ bUnion b) :
    bDisj ⟨b.1, insert c b.2.1, b.2.2.1, b.2.2.2⟩ := by
  obtain ⟨h1, h2, h3, h4⟩ := bFresh_parts hf
  obtain ⟨d1, d2, d3, d4, d5, d6⟩ := hd
  exact ⟨by simp [Finset.disjoint_insert_right, h1, d1], d2, d3,
         by simp [Finset.disjoint_insert_left, h3, d4],
         by simp [Finset.disjoint_insert_left, h4, d5], d6⟩

theorem bDisj_insert_inactive {b : Buckets} {c : String} (hd : bDisj b) (hf : c ∉ bUnion b) :
    bDisj ⟨b.1, b.2.1, insert c b.2.2.1, b.2.2.2⟩ := by
  obtain ⟨h1, h2, h3, h4⟩ := bFresh_parts hf
  obtain ⟨d1, d2, d3, d4, d5, d6⟩ := hd
  exact ⟨d1, by simp [Finset.disjoint_insert_right, h1, d2], d3,
         by simp [Finset.disjoint_insert_right, h2, d4], d5,
         by simp [Finset.disjoint_insert_left, h4, d6]⟩

theorem bDisj_insert_unknown {b : Buckets} {c : String} (hd : bDisj b) (hf : c ∉ bUnion b) :
    bDisj ⟨b.1, b.2.1, b.2.2.1, insert c b.2.2.2⟩ := by
  obtain ⟨h1, h2, h3, h4⟩ := bFresh_parts hf
  obtain ⟨d1, d2, d3, d4, d5, d6⟩ := hd
  exact ⟨d1, d2, by simp [Finset.disjoint_insert_right, h1, d3], d4,
         by simp [Finset.disjoint_insert_right, h2, d5],
         by simp [Finset.disjoint_insert_right, h3, d6]⟩

/-- Loop invariant of `_validate`: starting from pairwise-disjoint
buckets that contain none of the (duplicate-free, canonical-form)
remaining candidates, a successful run extends the bucket union by
exactly the candidate set and preserves disjointness. -/
theorem validateLoop_spec (srv : AccountServer) (people : AccountClient) :
    ∀ (ids : List String) (st : AState) (b : Buckets),
      CacheWF srv st →
      ids.Nodup →
      (∀ c ∈ ids, canonPreserving srv c = true) →
      (∀ c ∈ ids, c ∉ bUnion b) →
      bDisj b →
      ∀ b' st', validateLoop srv people ids st b = .ok (b', st') →
        bUnion b' = bUnion b ∪ ids.toFinset ∧ bDisj b' := by
  intro ids
  induction ids with
  | nil =>
    intro st b hwf _ _ _ hd b' st' hrun
    simp only [validateLoop, Except.ok.injEq, Prod.mk.injEq] at hrun
    obtain ⟨⟨rfl, rfl⟩⟩ := hrun
    exact ⟨by simp, hd⟩
  | cons c rest ih =>
    intro st b hwf hnd hcanon hfresh hd b' st' hrun
    have hndr : rest.Nodup := (List.nodup_cons.mp hnd).2
    have hcnotin : c ∉ rest := (List.nodup_cons.mp hnd).1
    have hcanonr : ∀ x ∈ rest, canonPreserving srv x = true :=
      fun x hx => hcanon x (List.mem_cons_of_mem c hx)
    have hfreshc : c ∉ bUnion b := hfresh c (List.mem_cons_self c rest)
    have hfreshr : ∀ x ∈ rest, x ∉ bUnion b :=
      fun x hx => hfresh x (List.mem_cons_of_mem c hx)
    rw [validateLoop] at hrun
    rcases hget : people.get srv st c with ⟨r, st₁⟩
    rw [hget] at hrun
    cases r with
    | error e =>
      dsimp only at hrun
      by_cases hcaught : caughtByValidate e = true
      · rw [if_pos hcaught] at hrun
        have hwf₁ : CacheWF srv st₁ := clientGet_err_wf hwf hget
        have hfresh' : ∀ x ∈ rest, x ∉ bUnion ⟨b.1, b.2.1, b.2.2.1, insert c b.2.2.2⟩ := by
          intro x hx
          rw [bUnion_insert_unknown]
          simp only [Finset.mem_insert, not_or]
          exact ⟨fun hxc => hcnotin (hxc ▸ hx), hfreshr x hx⟩
        obtain ⟨hu, hdj⟩ := ih st₁ _ hwf₁ hndr hcanonr hfresh'
          (bDisj_insert_unknown hd hfreshc) b' st' hrun
        refine ⟨?_, hdj⟩
        rw [hu, bUnion_insert_unknown]
        ext x
        simp
      · rw [if_neg hcaught] at hrun
        simp at hrun
    | ok account =>
      have hag : accountGet srv st c = (.ok account, st₁) := clientGet_ok_elim hget
      obtain ⟨hres, hwf₁, _, _, _, _, _⟩ := accountGet_ok_spec srv st hwf c account st₁ hag
      have hsid : account.sunetid = c := by
        have hc2 := hcanon c (List.mem_cons_self c rest)
        rw [canonPreserving, hres] at hc2
        simpa using hc2
      dsimp only at hrun
      by_cases hact : account.is_active = false
      · rw [if_pos hact] at hrun
        have hfresh' : ∀ x ∈ rest,
            x ∉ bUnion ⟨b.1, b.2.1, insert account.sunetid b.2.2.1, b.2.2.2⟩ := by
          intro x hx
          rw [bUnion_insert_inactive, hsid]
          simp only [Finset.mem_insert, not_or]
          exact ⟨fun hxc => hcnotin (hxc ▸ hx), hfreshr x hx⟩
        obtain ⟨hu, hdj⟩ := ih st₁ _ hwf₁ hndr hcanonr hfresh'
          (bDisj_insert_inactive hd (hsid ▸ hfreshc)) b' st' hrun
        refine ⟨?_, hdj⟩
        rw [hu, bUnion_insert_inactive, hsid]
        ext x
        simp
      · rw [if_neg hact] at hrun
        by_cases hfull : account.is_full = true
        · rw [if_pos hfull] at hrun
          have hfresh' : ∀ x ∈ rest,
              x ∉ bUnion ⟨insert account.sunetid b.1, b.2.1, b.2.2.1, b.2.2.2⟩ := by
            intro x hx
            rw [bUnion_insert_full, hsid]
            simp only [Finset.mem_insert, not_or]
            exact ⟨fun hxc => hcnotin (hxc ▸ hx), hfreshr x hx⟩
          obtain ⟨hu, hdj⟩ := ih st₁ _ hwf₁ hndr hcanonr hfresh'
            (bDisj_insert_full hd (hsid ▸ hfreshc)) b' st' hrun
          refine ⟨?_, hdj⟩
          rw [hu, bUnion_insert_full, hsid]
          ext x
          simp
        · rw [if_neg hfull] at hrun
          have hfresh' : ∀ x ∈ rest,
              x ∉ bUnion ⟨b.1, insert account.sunetid b.2.1, b.2.2.1, b.2.2.2⟩ := by
            intro x hx
            rw [bUnion_insert_base, hsid]
            simp only [Finset.mem_insert, not_or]
            exact ⟨fun hxc => hcnotin (hxc ▸ hx), hfreshr x hx⟩
          obtain ⟨hu, hdj⟩ := ih st₁ _ hwf₁ hndr hcanonr hfresh'
            (bDisj_insert_base hd (hsid ▸ hfreshc)) b' st' hrun
          refine ⟨?_, hdj⟩
          rw [hu, bUnion_insert_base, hsid]
          ext x
          simp

/-- C1 (amended).  For a candidate set run through `_validate` over a
well-formed cache, when every candidate that resolves successfully
resolves to its own canonical form (no alias-qualified candidates), the
four result sets are pairwise disjoint and their union equals `raw_set`,
the de-duplicated candidate set.  (The original claim asserted this even
for alias-qualified candidates; see the counterexample.) -/
theorem claim_C1_validate_partition (srv : AccountServer) (client : AccountClient)
    (st : AState) (ids : List String) (res : AccountValidationResults) (st' : AState)
    (hwf : CacheWF srv st)
    (hnd : ids.Nodup)
    (hcanon : ∀ c ∈ ids, canonPreserving srv c = true)
    (hrun : validateCore srv client st ids = .ok (res, st')) :
    (res.full ∪ res.base ∪ res.inactive ∪ res.unknown = res.raw_set) ∧
    Disjoint res.full res.base ∧ Disjoint res.full res.inactive ∧
    Disjoint res.full res.unknown ∧ Disjoint res.base res.inactive ∧
    Disjoint res.base res.unknown ∧ Disjoint res.inactive res.unknown := by
  unfold validateCore at hrun
  rcases hloop : validateLoop srv client.only_people ids st ⟨∅, ∅, ∅, ∅⟩ with e | p
  · rw [hloop] at hrun
    simp at hrun
  · rw [hloop] at hrun
    rcases p with ⟨b, st₁⟩
    simp only [Except.ok.injEq, Prod.mk.injEq] at hrun
    obtain ⟨hres, rfl⟩ := hrun
    have hempty : bDisj (⟨∅, ∅, ∅, ∅⟩ : Buckets) := by
      refine ⟨?_, ?_, ?_, ?_, ?_, ?_⟩ <;> simp
    have hfresh : ∀ c ∈ ids, c ∉ bUnion (⟨∅, ∅, ∅, ∅⟩ : Buckets) := by
      intro c _
      simp [bUnion]
    obtain ⟨hu, hd⟩ := validateLoop_spec srv client.only_people ids st ⟨∅, ∅, ∅, ∅⟩
      hwf hnd hcanon hfresh hempty b st₁ hloop
    obtain ⟨d1, d2, d3, d4, d5, d6⟩ := hd
    rw [← hres]
    refine ⟨?_, d1, d2, d3, d4, d5, d6⟩
    have : bUnion b = ids.toFinset := by
      rw [hu]
      ext x
      simp [bUnion]
    simpa [bUnion] using this

/-! ## Concrete test fixtures

A small concrete account server used by counterexamples and witnesses:
one full active person, one base active person, one inactive person, one
functional account; everything else is 404. -/

def mockAccountServer : AccountServer := fun id =>
  if id = "jdoe" then
    .ok { id := "jdoe", name := "Doe, Jane", description := "Staff", type := "self",
          status := "active", services := [{ name := "leland", isActive := true }],
          lastUpdate := 10 }
  else if id = "basep" then
    .ok { id := "basep", name := "Base, Person", description := "Student", type := "self",
          status := "active", services := [], lastUpdate := 11 }
  else if id = "inactp" then
    .ok { id := "inactp", name := "Former, Person", description := "Former staff",
          type := "self", status := "inactive", services := [], lastUpdate := 12 }
  else if id = "funcacct" then
    .ok { id := "funcacct", name := "Shared Mailbox", description := "A mailbox",
          type := "functional", status := "active", services := [], lastUpdate := 13 }
  else
    .status404

def aState0 : AState := { cache := [], counter := 0, calls := 0 }

def clientPlain : AccountClient := ⟨[]⟩

/-- The instance constructed for `jdoe` on a first fetch. -/
def jdoeAccount : Account :=
  { sunetid := "jdoe", name := "Doe, Jane", description := "Staff", is_person := true,
    is_active := true, is_full := true, last_update := 10, oid := 0 }

/-- The client state after fetching `jdoe` once from an initial state. -/
def aStateJdoe : AState :=
  { cache := [("jdoe", jdoeAccount)], counter := 1, calls := 1 }

theorem accountGet_jdoe_alias_eval :
    accountGet mockAccountServer aState0 "jdoe@stanford.edu" = (.ok jdoeAccount, aStateJdoe) := by
  have hA1 : isAsciiStr "jdoe@stanford.edu" = true := by decide
  have hS1 : hasStanfordSuffix "jdoe@stanford.edu" = true := by decide
  have hStrip : stripStanfordSuffix "jdoe@stanford.edu" = "jdoe" := by decide
  have hA2 : isAsciiStr "jdoe" = true := by decide
  have hS2 : hasStanfordSuffix "jdoe" = false := by decide
  rw [accountGet]
  simp only [aState0, cacheFind, List.find?_nil, Option.map_none, hA1, hS1, hStrip]
  rw [accountGet]
  simp [cacheFind, hA2, hS2, mockAccountServer, buildAccount, buildCore,
    isFullFromServices, jdoeAccount, aStateJdoe, Except.map]

/-- C1, counterexample to the claim as stated: validating the single
alias-qualified candidate `jdoe@stanford.edu` yields `full = {jdoe}`
(the canonical form returned by the lookup) while `raw_set` is the raw
candidate set `{jdoe@stanford.edu}`, so the union of the four result
sets is not `raw_set`. -/
theorem claim_C1_counterexample :
    validateOfList mockAccountServer clientPlain aState0 ["jdoe@stanford.edu"] =
      .ok ({ raw := none, raw_set := {"jdoe@stanford.edu"}, full := {"jdoe"},
             base := ∅, inactive := ∅, unknown := ∅ }, aStateJdoe) ∧
    ¬ (({"jdoe"} : Finset String) ∪ ∅ ∪ ∅ ∪ ∅ = {"jdoe@stanford.edu"}) := by
  constructor
  · simp [validateOfList, validateCore, validateLoop, AccountClient.get,
      AccountClient.only_people, clientPlain, accountGet_jdoe_alias_eval,
      checkFilters, AFilter.accept, jdoeAccount]
  · decide

/-! ## Further concrete evaluations for witnesses -/

theorem accountGet_jdoe_eval :
    accountGet mockAccountServer aState0 "jdoe" = (.ok jdoeAccount, aStateJdoe) := by
  have hA2 : isAsciiStr "jdoe" = true := by decide
  have hS2 : hasStanfordSuffix "jdoe" = false := by decide
  rw [accountGet]
  simp [aState0, cacheFind, hA2, hS2, mockAccountServer, buildAccount, buildCore,
    isFullFromServices, jdoeAccount, aStateJdoe, Except.map]

/-- The client state after fetching `jdoe` and then failing to fetch
`ghost` (one further request, no cache change). -/
def aStateJdoeGhost : AState :=
  { cache := [("jdoe", jdoeAccount)], counter := 1, calls := 2 }

theorem accountGet_ghost_eval :
    accountGet mockAccountServer aStateJdoe "ghost" = (.error .keyErr, aStateJdoeGhost) := by
  have hA : isAsciiStr "ghost" = true := by decide
  have hS : hasStanfordSuffix "ghost" = false := by decide
  rw [accountGet]
  simp [aStateJdoe, cacheFind, jdoeAccount, hA, hS, mockAccountServer, aStateJdoeGhost]

theorem resolvePure_jdoe_eval :
    resolvePure mockAccountServer "jdoe" = .ok jdoeAccount.toAccountCore := by
  have hA2 : isAsciiStr "jdoe" = true := by decide
  have hS2 : hasStanfordSuffix "jdoe" = false := by decide
  rw [resolvePure]
  simp [hA2, hS2, mockAccountServer, buildCore, isFullFromServices, jdoeAccount]

theorem resolvePure_ghost_eval :
    resolvePure mockAccountServer "ghost" = .error .keyErr := by
  have hA : isAsciiStr "ghost" = true := by decide
  have hS : hasStanfordSuffix "ghost" = false := by decide
  rw [resolvePure]
  simp [hA, hS, mockAccountServer]

/-- Witness for C1: a two-candidate run (one active full person, one
unknown identifier), with every hypothesis discharged concretely. -/
theorem claim_C1_validate_partition_witness :
    CacheWF mockAccountServer aState0 ∧
    (["jdoe", "ghost"] : List String).Nodup ∧
    (∀ c ∈ ["jdoe", "ghost"], canonPreserving mockAccountServer c = true) ∧
    validateCore mockAccountServer clientPlain aState0 ["jdoe", "ghost"] =
      .ok ({ raw := none, raw_set := {"jdoe", "ghost"}, full := {"jdoe"},
             base := ∅, inactive := ∅, unknown := {"ghost"} }, aStateJdoeGhost) ∧
    (({"jdoe"} : Finset String) ∪ ∅ ∪ ∅ ∪ {"ghost"} = {"jdoe", "ghost"} ∧
      Disjoint ({"jdoe"} : Finset String) (∅ : Finset String) ∧
      Disjoint ({"jdoe"} : Finset String) (∅ : Finset String) ∧
      Disjoint ({"jdoe"} : Finset String) ({"ghost"} : Finset String) ∧
      Disjoint (∅ : Finset String) (∅ : Finset String) ∧
      Disjoint (∅ : Finset String) ({"ghost"} : Finset String) ∧
      Disjoint (∅ : Finset String) ({"ghost"} : Finset String)) := by
  have hwf : CacheWF mockAccountServer aState0 := cacheWF_nil mockAccountServer 0 0
  have hnd : (["jdoe", "ghost"] : List String).Nodup := by decide
  have hcanon : ∀ c ∈ ["jdoe", "ghost"], canonPreserving mockAccountServer c = true := by
    intro c hc
    fin_cases hc
    · simp [canonPreserving, resolvePure_jdoe_eval, jdoeAccount]
    · simp [canonPreserving, resolvePure_ghost_eval]
  have hrun : validateCore mockAccountServer clientPlain aState0 ["jdoe", "ghost"] =
      .ok ({ raw := none, raw_set := {"jdoe", "ghost"}, full := {"jdoe"},
             base := ∅, inactive := ∅, unknown := {"ghost"} }, aStateJdoeGhost) := by
    simp [validateCore, validateLoop, AccountClient.get, AccountClient.only_people,
      clientPlain, accountGet_jdoe_eval, accountGet_ghost_eval, checkFilters,
      AFilter.accept, jdoeAccount, caughtByValidate]
  exact ⟨hwf, hnd, hcanon, hrun,
    claim_C1_validate_partition mockAccountServer clientPlain aState0 ["jdoe", "ghost"]
      _ _ hwf hnd hcanon hrun⟩

/-- Witness for C8: the concrete `jdoe` lookup, repeated and after a
cache clear. -/
theorem claim_C8_cache_identity_witness :
    CacheWF mockAccountServer aState0 ∧
    AccountClient.get ⟨[]⟩ mockAccountServer aState0 "jdoe" = (.ok jdoeAccount, aStateJdoe) ∧
    (AccountClient.get ⟨[]⟩ mockAccountServer aStateJdoe "jdoe" = (.ok jdoeAccount, aStateJdoe) ∧
      ∃ a2 st2,
        AccountClient.get ⟨[]⟩ mockAccountServer (clearCache aStateJdoe) "jdoe" = (.ok a2, st2) ∧
        a2.toAccountCore = jdoeAccount.toAccountCore ∧ a2.oid ≠ jdoeAccount.oid) := by
  have hwf : CacheWF mockAccountServer aState0 := cacheWF_nil mockAccountServer 0 0
  have hget : AccountClient.get ⟨[]⟩ mockAccountServer aState0 "jdoe" =
      (.ok jdoeAccount, aStateJdoe) := by
    rw [clientGet_nofilters]
    exact accountGet_jdoe_eval
  exact ⟨hwf, hget,
    claim_C8_cache_identity mockAccountServer aState0 "jdoe" jdoeAccount aStateJdoe hwf hget⟩

/-- The instance constructed for `inactp` on a first fetch. -/
def inactpAccount : Account :=
  { sunetid := "inactp", name := "Former, Person", description := "Former staff",
    is_person := true, is_active := false, is_full := false, last_update := 12, oid := 0 }

/-- The client state after fetching `inactp` once from an initial state. -/
def aStateInactp : AState :=
  { cache := [("inactp", inactpAccount)], counter := 1, calls := 1 }

theorem accountGet_inactp_eval :
    accountGet mockAccountServer aState0 "inactp" = (.ok inactpAccount, aStateInactp) := by
  have hA : isAsciiStr "inactp" = true := by decide
  have hS : hasStanfordSuffix "inactp" = false := by decide
  rw [accountGet]
  simp [aState0, cacheFind, hA, hS, mockAccountServer, buildAccount, buildCore,
    isFullFromServices, inactpAccount, aStateInactp, Except.map]

/-- Witness for C10: fetching the inactive account `inactp` through an
`only_active` view rejects it but leaves it cached; the unfiltered
parent then serves it from the cache. -/
theorem claim_C10_filter_reject_caches_witness :
    accountGet mockAccountServer aState0 "inactp" = (.ok inactpAccount, aStateInactp) ∧
    ([AFilter.onlyActive].all (fun f => f.accept inactpAccount)) = false ∧
    (AccountClient.get ⟨[AFilter.onlyActive]⟩ mockAccountServer aState0 "inactp" =
        (.error .keyErr, aStateInactp) ∧
      (hasStanfordSuffix "inactp" = false →
        cacheFind aStateInactp.cache "inactp" = some inactpAccount) ∧
      AccountClient.get ⟨[]⟩ mockAccountServer aStateInactp "inactp" =
        (.ok inactpAccount, aStateInactp)) := by
  have hget := accountGet_inactp_eval
  have hrej : ([AFilter.onlyActive].all (fun f => f.accept inactpAccount)) = false := by
    decide
  exact ⟨hget, hrej,
    claim_C10_filter_reject_caches mockAccountServer [AFilter.onlyActive] aState0 "inactp"
      inactpAccount aStateInactp hget hrej⟩

/-! ## Workgroup API (`workgroup/properties.py`, `workgroup/workgroup.py`)

The Workgroup entity is mutable; we model one instance as a record and
each method as a function from the old record (plus the server response
for the single HTTP request the method makes, and the current time) to
the new record together with an optional raised error.  `WorkgroupDeleted`
is a `KeyError` subclass; the model keeps it as the distinct constructor
`Err.wgDeleted`.  Timestamps (`datetime.now`) and dates are abstracted to
`Nat` values passed in as `now`/`today`. -/

inductive WorkgroupVisibility where
  | STANFORD
  | PRIVATE
deriving DecidableEq, Repr

/-- Models `WorkgroupVisibility.from_str`: case-sensitive; unknown values raise
`ValueError`. -/
def WorkgroupVisibility.from_str (visibility : String) : Except Err WorkgroupVisibility :=
  if visibility == "PRIVATE" then .ok .PRIVATE
  else if visibility == "STANFORD" then .ok .STANFORD
  else .error .valueErr

inductive WorkgroupFilter where
  | NONE
  | ACADEMIC_ADMINISTRATIVE
  | STUDENT
  | FACULTY
  | STAFF
  | FACULTY_STAFF
  | FACULTY_STUDENT
  | STAFF_STUDENT
  | FACULTY_STAFF_STUDENT
deriving DecidableEq, Repr

/-- Models `WorkgroupFilter.from_str`: case-sensitive; unknown values raise
`ValueError`. -/
def WorkgroupFilter.from_str (value : String) : Except Err WorkgroupFilter :=
  if value == "NONE" then .ok .NONE
  else if value == "ACADEMIC_ADMINISTRATIVE" then .ok .ACADEMIC_ADMINISTRATIVE
  else if value == "STUDENT" then .ok .STUDENT
  else if value == "FACULTY" then .ok .FACULTY
  else if value == "STAFF" then .ok .STAFF
  else if value == "FACULTY_STAFF" then .ok .FACULTY_STAFF
  else if value == "FACULTY_STUDENT" then .ok .FACULTY_STUDENT
  else if value == "STAFF_STUDENT" then .ok .STAFF_STUDENT
  else if value == "FACULTY_STAFF_STUDENT" then .ok .FACULTY_STAFF_STUDENT
  else .error .valueErr

/-- One entry of the `members`/`administrators` arrays of the Workgroup
JSON: a `type` tag (`PERSON`, `WORKGROUP` or `CERTIFICATE`) and an
identifier. -/
structure WorkgroupMemberJson where
  type : String
  id : String
deriving DecidableEq, Repr

/-- The JSON body of a successful Workgroup fetch/update response.
`lastUpdate` date-string parsing (`datestr_to_date`) is abstracted into
an already-parsed `Nat`. -/
structure WorkgroupJson where
  name : String
  description : Option String
  privgroup : String
  reusable : String
  visibility : String
  filter : String
  lastUpdate : Nat
  members : List WorkgroupMemberJson
  administrators : List WorkgroupMemberJson
deriving DecidableEq, Repr

/-- One `WorkgroupMembership` value: the three per-kind identifier sets
(people, nested workgroups, certificates). -/
structure WorkgroupMembershipSets where
  people : Finset String
  workgroups : Finset String
  certificates : Finset String
deriving DecidableEq

/-- Models `WorkgroupMembership.__len__`: the combined size of the three
containers. -/
def WorkgroupMembershipSets.size (m : WorkgroupMembershipSets) : Nat :=
  m.people.card + m.workgroups.card + m.certificates.card

def WorkgroupMembershipSets.empty : WorkgroupMembershipSets := ⟨∅, ∅, ∅⟩

/-- The splitting loop of `WorkgroupMembership.update_from_upstream`:
each entry goes into the set for its `type` tag; an unknown tag raises
`NotImplementedError` (before any container is touched). -/
def splitMembers (l : List WorkgroupMemberJson) : Except Err WorkgroupMembershipSets :=
  match l with
  | [] => .ok .empty
  | m :: rest =>
    match splitMembers rest with
    | .error e => .error e
    | .ok s =>
      if m.type == "PERSON" then .ok { s with people := insert m.id s.people }
      else if m.type == "WORKGROUP" then .ok { s with workgroups := insert m.id s.workgroups }
      else if m.type == "CERTIFICATE" then
        .ok { s with certificates := insert m.id s.certificates }
      else .error .notImpl

/-- One `Workgroup` instance (its mutable attributes), plus a `calls`
counter counting the HTTP requests issued through it (a model artifact
making "no network call" stateable). -/
structure Workgroup where
  deleted : Bool
  name : String
  description : String
  privgroup : Bool
  reusable : Bool
  visibility : WorkgroupVisibility
  filter : WorkgroupFilter
  last_update : Nat
  last_refresh : Nat
  can_see_membership : Bool
  members : WorkgroupMembershipSets
  administrators : WorkgroupMembershipSets
  calls : Nat
deriving DecidableEq

/-- One HTTP status outcome of the workgroup endpoints, as distinguished
by the response handling in `workgroup.py`: for status 400 the body is
decoded and `inactive` records whether it carries the soft-delete marker
(`notification == "Workgroup is inactive"`). -/
inductive WgResponse where
  | ok (json : WorkgroupJson)
  | badRequest (inactive : Bool)
  | serverError
  | denied
  | missing
  | unexpected
deriving DecidableEq, Repr

/-- Models `Workgroup._from_json`: re-derive every attribute but the name from
the response JSON, updating the attributes in source order; an error
partway (unknown enum string or member tag) leaves the earlier updates
in place, matching the sequential assignments of the Python code.
`can_see_membership` is set from the administrator count alone, and
`last_refresh` is set to the current time. -/
def Workgroup.from_json (wg : Workgroup) (json : WorkgroupJson) (now : Nat) :
    Workgroup × Option Err :=
  let wg1 := { wg with description := json.description.getD "" }
  let wg2 := { wg1 with privgroup := json.privgroup == "TRUE" }
  let wg3 := { wg2 with reusable := json.reusable == "TRUE" }
  match WorkgroupVisibility.from_str json.visibility with
  | .error e => (wg3, some e)
  | .ok vis =>
    let wg4 := { wg3 with visibility := vis }
    match WorkgroupFilter.from_str json.filter with
    | .error e => (wg4, some e)
    | .ok fil =>
      let wg5 := { wg4 with filter := fil, last_update := json.lastUpdate }
      match splitMembers json.members with
      | .error e => (wg5, some e)
      | .ok mem =>
        let wg6 := { wg5 with members := mem }
        match splitMembers json.administrators with
        | .error e => (wg6, some e)
        | .ok adm =>
          ({ wg6 with administrators := adm,
                      can_see_membership := decide (0 < adm.size),
                      last_refresh := now }, none)

/-- Models `Workgroup._mark_deleted`: force both membership sets empty, update
the last-refresh time, and set the deleted flag. -/
def Workgroup.mark_deleted (wg : Workgroup) (now : Nat) : Workgroup :=
  { wg with members := .empty, administrators := .empty,
            last_refresh := now, deleted := true }

/-- Models `Workgroup._handle_refresh`: a 200 response re-derives the instance
from its JSON; a 400 response carrying the soft-delete marker marks the
instance deleted and raises `WorkgroupDeleted`; other statuses map to
their error kinds with the instance untouched. -/
def Workgroup.handle_refresh (wg : Workgroup) (resp : WgResponse) (now : Nat) :
    Workgroup × Option Err :=
  match resp with
  | .ok json => wg.from_json json now
  | .badRequest true => (wg.mark_deleted now, some .wgDeleted)
  | .badRequest false => (wg, some .childProcess)
  | .serverError => (wg, some .childProcess)
  | .denied => (wg, some .permission)
  | .missing => (wg, some .keyErr)
  | .unexpected => (wg, some .notImpl)

/-- Models `Workgroup.refresh`: fail fast with `EOFError` on a deleted
instance; otherwise issue the GET and hand the response to
`_handle_refresh`. -/
def Workgroup.refresh (wg : Workgroup) (resp : WgResponse) (now : Nat) :
    Workgroup × Option Err :=
  if wg.deleted then (wg, some .eofErr)
  else Workgroup.handle_refresh { wg with calls := wg.calls + 1 } resp now

/-- Models `Workgroup._update`: fail fast with `EOFError` on a deleted
instance; otherwise issue the PUT carrying the one changed field and
treat the response exactly like a refresh response. -/
def Workgroup.update_prop (wg : Workgroup) (resp : WgResponse) (now : Nat) :
    Workgroup × Option Err :=
  if wg.deleted then (wg, some .eofErr)
  else Workgroup.handle_refresh { wg with calls := wg.calls + 1 } resp now

/-! ### Property getters

Each property getter raises `EOFError` first when the instance is
deleted — except `deleted`, `name` and `last_refresh` (and `client`,
which has no local state to model), whose bodies are bare returns. -/

def Workgroup.deleted_get (wg : Workgroup) : Bool := wg.deleted

def Workgroup.name_get (wg : Workgroup) : String := wg.name

def Workgroup.last_refresh_get (wg : Workgroup) : Nat := wg.last_refresh

def Workgroup.description_get (wg : Workgroup) : Except Err String :=
  if wg.deleted then .error .eofErr else .ok wg.description

def Workgroup.last_update_get (wg : Workgroup) : Except Err Nat :=
  if wg.deleted then .error .eofErr else .ok wg.last_update

def Workgroup.filter_get (wg : Workgroup) : Except Err WorkgroupFilter :=
  if wg.deleted then .error .eofErr else .ok wg.filter

def Workgroup.privgroup_get (wg : Workgroup) : Except Err Bool :=
  if wg.deleted then .error .eofErr else .ok wg.privgroup

def Workgroup.reusable_get (wg : Workgroup) : Except Err Bool :=
  if wg.deleted then .error .eofErr else .ok wg.reusable

def Workgroup.visibility_get (wg : Workgroup) : Except Err WorkgroupVisibility :=
  if wg.deleted then .error .eofErr else .ok wg.visibility

def Workgroup.can_see_membership_get (wg : Workgroup) : Except Err Bool :=
  if wg.deleted then .error .eofErr else .ok wg.can_see_membership

def Workgroup.members_get (wg : Workgroup) : Except Err WorkgroupMembershipSets :=
  if wg.deleted then .error .eofErr else .ok wg.members

def Workgroup.administrators_get (wg : Workgroup) : Except Err WorkgroupMembershipSets :=
  if wg.deleted then .error .eofErr else .ok wg.administrators

/-! ### Property setters -/

/-- Models `value.encode(latin1)`: it succeeds iff every character is a code
point below 256. -/
def latin1Encodable (s : String) : Bool :=
  s.toList.all (fun c => c.toNat < 256)

/-- Models `str.isprintable` restricted to the Latin-1 range (which the
preceding encodability check guarantees): the non-printable Latin-1 code
points are the C0 and C1 controls, the no-break space (160) and the soft
hyphen (173). -/
def latin1PrintableChar (c : Char) : Bool :=
  !(c.toNat < 32 || (127 ≤ c.toNat && c.toNat ≤ 160) || c.toNat == 173)

def pyIsPrintable (s : String) : Bool :=
  s.toList.all latin1PrintableChar

/-- The `description` setter: `EOFError` on a deleted instance, then
local validation (`IndexError` for an empty or over-long value,
`ValueError` for a non-Latin-1 or non-printable value), then the remote
update handled like a refresh. -/
def Workgroup.description_set (wg : Workgroup) (value : String) (resp : WgResponse)
    (now : Nat) : Workgroup × Option Err :=
  if wg.deleted then (wg, some .eofErr)
  else if value.length == 0 then (wg, some .indexErr)
  else if 255 < value.length then (wg, some .indexErr)
  else if !latin1Encodable value then (wg, some .valueErr)
  else if !pyIsPrintable value then (wg, some .valueErr)
  else wg.update_prop resp now

/-- The `filter` setter (enum-valued call; the string-valued convenience
path goes through `WorkgroupFilter.from_str` first). -/
def Workgroup.filter_set (wg : Workgroup) (value : WorkgroupFilter) (resp : WgResponse)
    (now : Nat) : Workgroup × Option Err :=
  if wg.deleted then (wg, some .eofErr)
  else wg.update_prop resp now

/-- The `privgroup` setter (the non-`bool` `TypeError` path is
unrepresentable in the typed model). -/
def Workgroup.privgroup_set (wg : Workgroup) (value : Bool) (resp : WgResponse)
    (now : Nat) : Workgroup × Option Err :=
  if wg.deleted then (wg, some .eofErr)
  else wg.update_prop resp now

/-- The `reusable` setter. -/
def Workgroup.reusable_set (wg : Workgroup) (value : Bool) (resp : WgResponse)
    (now : Nat) : Workgroup × Option Err :=
  if wg.deleted then (wg, some .eofErr)
  else wg.update_prop resp now

/-- The `visibility` setter (enum-valued call). -/
def Workgroup.visibility_set (wg : Workgroup) (value : WorkgroupVisibility)
    (resp : WgResponse) (now : Nat) : Workgroup × Option Err :=
  if wg.deleted then (wg, some .eofErr)
  else wg.update_prop resp now

/-! ### Privilege projection read -/

structure PrivgroupEntryJson where
  id : String
  name : String
  lastUpdate : Nat
deriving DecidableEq, Repr

/-- Models `PrivgroupEntry`: the name is right-stripped of trailing whitespace
(`rstrip`), and the `lastUpdate` date is abstracted as in
`WorkgroupJson`. -/
structure PrivgroupEntry where
  sunetid : String
  name : String
  last_update : Nat
deriving DecidableEq, Repr

def PrivgroupEntry.from_json (j : PrivgroupEntryJson) : PrivgroupEntry :=
  { sunetid := j.id, name := j.name.trimRight, last_update := j.lastUpdate }

structure PrivgroupContents where
  members : Finset PrivgroupEntry
  administrators : Finset PrivgroupEntry
deriving DecidableEq

/-- The response statuses distinguished by `get_privgroup` (it has no
404 case: any status other than 200, 400, 500, 401, 403 raises
`NotImplementedError`). -/
inductive PrivgroupResponse where
  | ok (members : List PrivgroupEntryJson) (administrators : List PrivgroupEntryJson)
  | badRequest (inactive : Bool)
  | serverError
  | denied
  | unexpected
deriving DecidableEq, Repr

def privgroupEntriesOf (l : List PrivgroupEntryJson) : Finset PrivgroupEntry :=
  (l.map PrivgroupEntry.from_json).toFinset

/-- Models `Workgroup.get_privgroup`: `EOFError` on a deleted instance; a local
`PermissionError` with no network call when membership is not visible;
otherwise one GET whose 400-with-marker response marks the instance
deleted before raising `WorkgroupDeleted`. -/
def Workgroup.get_privgroup (wg : Workgroup) (resp : PrivgroupResponse) (now : Nat) :
    Workgroup × Except Err PrivgroupContents :=
  if wg.deleted then (wg, .error .eofErr)
  else if !wg.can_see_membership then (wg, .error .permission)
  else
    let wg1 := { wg with calls := wg.calls + 1 }
    match resp with
    | .badRequest true => (wg1.mark_deleted now, .error .wgDeleted)
    | .badRequest false => (wg1, .error .childProcess)
    | .serverError => (wg1, .error .childProcess)
    | .denied => (wg1, .error .permission)
    | .unexpected => (wg1, .error .notImpl)
    | .ok mems admins =>
      (wg1, .ok { members := privgroupEntriesOf mems,
                  administrators := privgroupEntriesOf admins })

/-! ### Deletion -/

/-- Models `Workgroup.delete`: `EOFError` (no network call) when the local
instance is already deleted; one DELETE otherwise; a 200 marks the
instance deleted (emptying both membership sets) with no further remote
reads; a 400 with the soft-delete marker also marks it deleted and then
raises `WorkgroupDeleted`. -/
def Workgroup.delete (wg : Workgroup) (resp : WgResponse) (now : Nat) :
    Workgroup × Option Err :=
  if wg.deleted then (wg, some .eofErr)
  else
    let wg1 := { wg with calls := wg.calls + 1 }
    match resp with
    | .ok _ => (wg1.mark_deleted now, none)
    | .badRequest true => (wg1.mark_deleted now, some .wgDeleted)
    | .badRequest false => (wg1, some .childProcess)
    | .serverError => (wg1, some .childProcess)
    | .denied => (wg1, some .permission)
    | .missing => (wg1, some .keyErr)
    | .unexpected => (wg1, some .notImpl)

/-! ## Membership proxy containers (`workgroup/member.py`)

A container holds a weak reference to its owning Workgroup (`none` once
the owner has been garbage-collected), the local identifier set, and its
role/type tags.  The owning Workgroup is carried inside the container
record: a mutation that succeeds updates both the owner (its last-update
date) and the local set. -/

/-- The response statuses distinguished by the membership `add`/`discard`
calls: 400 and 500 raise `ChildProcessError` (the 400 body is *not*
examined for the soft-delete marker), 401/403 raise `PermissionError`,
404 raises `ValueError` on add and `KeyError` on discard; anything else
is treated as success. -/
inductive MutResponse where
  | success
  | badRequest (inactive : Bool)
  | serverError
  | denied
  | missing
deriving DecidableEq, Repr

structure WorkgroupMembershipContainer where
  owner : Option Workgroup
  ids : Finset String
  collection_type : String
  container_type : String
deriving DecidableEq

/-- Models `WorkgroupMembershipContainer.add`: duplicate check against the
local set first (`KeyError`), then weak-reference resolution
(`EOFError`, no network call), then the PUT; on success the last-update
date of the owner resets to today and the identifier joins the local
set; on failure the local set is untouched. -/
def WorkgroupMembershipContainer.add (c : WorkgroupMembershipContainer) (value : String)
    (resp : MutResponse) (today : Nat) : WorkgroupMembershipContainer × Option Err :=
  if value ∈ c.ids then (c, some .keyErr)
  else
    match c.owner with
    | none => (c, some .eofErr)
    | some wg =>
      let wg1 := { wg with calls := wg.calls + 1 }
      match resp with
      | .badRequest _ => ({ c with owner := some wg1 }, some .childProcess)
      | .serverError => ({ c with owner := some wg1 }, some .childProcess)
      | .denied => ({ c with owner := some wg1 }, some .permission)
      | .missing => ({ c with owner := some wg1 }, some .valueErr)
      | .success =>
        ({ c with owner := some { wg1 with last_update := today },
                  ids := insert value c.ids }, none)

/-- Models `WorkgroupMembershipContainer.discard`: not-present check against
the local set first (`KeyError`), then weak-reference resolution
(`EOFError`, no network call), then the DELETE; on success the
identifier leaves the local set and the last-update date of the owner
resets; on failure the local set is untouched. -/
def WorkgroupMembershipContainer.discard (c : WorkgroupMembershipContainer) (value : String)
    (resp : MutResponse) (today : Nat) : WorkgroupMembershipContainer × Option Err :=
  if value ∉ c.ids then (c, some .keyErr)
  else
    match c.owner with
    | none => (c, some .eofErr)
    | some wg =>
      let wg1 := { wg with calls := wg.calls + 1 }
      match resp with
      | .badRequest _ => ({ c with owner := some wg1 }, some .childProcess)
      | .serverError => ({ c with owner := some wg1 }, some .childProcess)
      | .denied => ({ c with owner := some wg1 }, some .permission)
      | .missing => ({ c with owner := some wg1 }, some .keyErr)
      | .success =>
        ({ c with owner := some { wg1 with last_update := today },
                  ids := c.ids.erase value }, none)

/-- Models `MutableSet.remove` (the mixin used via `remove`/`__delitem__`):
raise `KeyError` when the value is not present, otherwise delegate to
`discard`. -/
def WorkgroupMembershipContainer.remove (c : WorkgroupMembershipContainer) (value : String)
    (resp : MutResponse) (today : Nat) : WorkgroupMembershipContainer × Option Err :=
  if value ∉ c.ids then (c, some .keyErr)
  else c.discard value resp today

/-! ## Workgroup claim theorems -/

/-- C2 (amended).  A membership mutation that passes its local
duplicate/not-present check resolves the weak back-reference next; when
that reference is dead the operation fails with `EOFError` and leaves
the container (hence the world) untouched — no network call is
attempted.  (A duplicate `add`, or an absent-value `discard`/`remove`,
instead fails its local check with the duplicate/not-present `KeyError`
before the owner reference is ever consulted; see the counterexample.) -/
theorem claim_C2_owner_gone_after_local_check
    (c1 c2 c3 : WorkgroupMembershipContainer) (v1 v2 v3 : String)
    (r1 r2 r3 : MutResponse) (t1 t2 t3 : Nat)
    (h1o : c1.owner = none) (h1 : v1 ∉ c1.ids)
    (h2o : c2.owner = none) (h2 : v2 ∈ c2.ids)
    (h3o : c3.owner = none) (h3 : v3 ∈ c3.ids) :
    c1.add v1 r1 t1 = (c1, some .eofErr) ∧
    c2.discard v2 r2 t2 = (c2, some .eofErr) ∧
    c3.remove v3 r3 t3 = (c3, some .eofErr) := by
  refine ⟨?_, ?_, ?_⟩
  · unfold WorkgroupMembershipContainer.add
    rw [if_neg h1, h1o]
  · unfold WorkgroupMembershipContainer.discard
    rw [if_neg (by simpa using h2), h2o]
  · unfold WorkgroupMembershipContainer.remove WorkgroupMembershipContainer.discard
    rw [if_neg (by simpa using h3), if_neg (by simpa using h3), h3o]

/-- A membership container whose owning Workgroup has been
garbage-collected, still holding one identifier locally. -/
def contDead : WorkgroupMembershipContainer :=
  { owner := none, ids := {"alice"}, collection_type := "members",
    container_type := "USER" }

/-- C2, counterexample to the claim as stated: with a dead owner
reference, `add` of an identifier already in the local set fails with
the duplicate `KeyError`, not with the owner-gone `EOFError` — the local
check runs before the weak reference is resolved. -/
theorem claim_C2_counterexample :
    contDead.add "alice" .success 5 = (contDead, some .keyErr) ∧
    Err.keyErr ≠ Err.eofErr := by
  constructor
  · unfold WorkgroupMembershipContainer.add
    rw [if_pos (by decide)]
  · decide

/-- Witness for C2: the dead-owner container, mutated with a fresh and
with an already-present identifier. -/
theorem claim_C2_owner_gone_witness :
    contDead.owner = none ∧ "bob" ∉ contDead.ids ∧ "alice" ∈ contDead.ids ∧
    (contDead.add "bob" .success 5 = (contDead, some .eofErr) ∧
      contDead.discard "alice" .success 5 = (contDead, some .eofErr) ∧
      contDead.remove "alice" .success 5 = (contDead, some .eofErr)) := by
  refine ⟨rfl, by decide, by decide, ?_⟩
  exact claim_C2_owner_gone_after_local_check contDead contDead contDead "bob" "alice" "alice"
    .success .success .success 5 5 5 rfl (by decide) rfl (by decide) rfl (by decide)

/-- C3 (amended).  On a live Workgroup entity, refresh, every property
setter (given locally-valid input), the privilege-projection read (when
membership is visible) and delete all react to the 400 soft-delete
marker response by setting the local deleted flag before raising
`WorkgroupDeleted`.  (A membership-collection `add`/`discard` does
*not*: it treats every 400 as a generic `ChildProcessError` and leaves
the flag untouched; see the counterexample.) -/
theorem claim_C3_soft_delete_flips_flag (wg : Workgroup) (v : String)
    (fv : WorkgroupFilter) (bv : Bool) (vv : WorkgroupVisibility) (now : Nat)
    (hnd : wg.deleted = false)
    (hsee : wg.can_see_membership = true)
    (hv0 : (v.length == 0) = false)
    (hv1 : (255 < v.length) = false)
    (hv2 : latin1Encodable v = true)
    (hv3 : pyIsPrintable v = true) :
    ((wg.refresh (.badRequest true) now).1.deleted = true ∧
      (wg.refresh (.badRequest true) now).2 = some .wgDeleted) ∧
    ((wg.description_set v (.badRequest true) now).1.deleted = true ∧
      (wg.description_set v (.badRequest true) now).2 = some .wgDeleted) ∧
    ((wg.filter_set fv (.badRequest true) now).1.deleted = true ∧
      (wg.filter_set fv (.badRequest true) now).2 = some .wgDeleted) ∧
    ((wg.privgroup_set bv (.badRequest true) now).1.deleted = true ∧
      (wg.privgroup_set bv (.badRequest true) now).2 = some .wgDeleted) ∧
    ((wg.reusable_set bv (.badRequest true) now).1.deleted = true ∧
      (wg.reusable_set bv (.badRequest true) now).2 = some .wgDeleted) ∧
    ((wg.visibility_set vv (.badRequest true) now).1.deleted = true ∧
      (wg.visibility_set vv (.badRequest true) now).2 = some .wgDeleted) ∧
    ((wg.get_privgroup (.badRequest true) now).1.deleted = true ∧
      (wg.get_privgroup (.badRequest true) now).2 = .error .wgDeleted) ∧
    ((wg.delete (.badRequest true) now).1.deleted = true ∧
      (wg.delete (.badRequest true) now).2 = some .wgDeleted) := by
  refine ⟨?_, ?_, ?_, ?_, ?_, ?_, ?_, ?_⟩ <;>
    simp [Workgroup.refresh, Workgroup.description_set, Workgroup.filter_set,
      Workgroup.privgroup_set, Workgroup.reusable_set, Workgroup.visibility_set,
      Workgroup.get_privgroup, Workgroup.delete, Workgroup.update_prop,
      Workgroup.handle_refresh, Workgroup.mark_deleted, hnd, hsee, hv0, hv1, hv2, hv3]

/-- A live Workgroup fixture: not deleted, STANFORD visibility, one
person member and one person administrator, membership visible. -/
def wgLive : Workgroup :=
  { deleted := false, name := "test:wg", description := "A test workgroup",
    privgroup := true, reusable := true, visibility := .STANFORD, filter := .NONE,
    last_update := 7, last_refresh := 40, can_see_membership := true,
    members := ⟨{"alice"}, ∅, ∅⟩, administrators := ⟨{"admin"}, ∅, ∅⟩, calls := 0 }

/-- A membership container whose owner `wgLive` is still alive, holding
one identifier. -/
def contLive : WorkgroupMembershipContainer :=
  { owner := some wgLive, ids := {"alice"}, collection_type := "members",
    container_type := "USER" }

/-- C3, counterexample to the claim as stated: a membership `add` that
receives the 400 soft-delete marker response raises the generic
`ChildProcessError` — not `WorkgroupDeleted` — and the owning
deleted flag of the Workgroup stays `false`. -/
theorem claim_C3_counterexample :
    (contLive.add "bob" (.badRequest true) 5).2 = some .childProcess ∧
    ((contLive.add "bob" (.badRequest true) 5).1.owner.map Workgroup.deleted) = some false ∧
    some Err.childProcess ≠ some Err.wgDeleted := by
  refine ⟨?_, ?_, by decide⟩ <;>
    simp [WorkgroupMembershipContainer.add, contLive, wgLive]

/-- Witness for C3: the live fixture, one valid description, and the
soft-delete marker response for every covered operation. -/
theorem claim_C3_soft_delete_flips_flag_witness :
    wgLive.deleted = false ∧ wgLive.can_see_membership = true ∧
    (("New description".length == 0) = false ∧ (255 < "New description".length) = false ∧
      latin1Encodable "New description" = true ∧ pyIsPrintable "New description" = true) ∧
    (((wgLive.refresh (.badRequest true) 9).1.deleted = true ∧
        (wgLive.refresh (.badRequest true) 9).2 = some .wgDeleted) ∧
      ((wgLive.description_set "New description" (.badRequest true) 9).1.deleted = true ∧
        (wgLive.description_set "New description" (.badRequest true) 9).2 = some .wgDeleted) ∧
      ((wgLive.filter_set .STAFF (.badRequest true) 9).1.deleted = true ∧
        (wgLive.filter_set .STAFF (.badRequest true) 9).2 = some .wgDeleted) ∧
      ((wgLive.privgroup_set false (.badRequest true) 9).1.deleted = true ∧
        (wgLive.privgroup_set false (.badRequest true) 9).2 = some .wgDeleted) ∧
      ((wgLive.reusable_set false (.badRequest true) 9).1.deleted = true ∧
        (wgLive.reusable_set false (.badRequest true) 9).2 = some .wgDeleted) ∧
      ((wgLive.visibility_set .PRIVATE (.badRequest true) 9).1.deleted = true ∧
        (wgLive.visibility_set .PRIVATE (.badRequest true) 9).2 = some .wgDeleted) ∧
      ((wgLive.get_privgroup (.badRequest true) 9).1.deleted = true ∧
        (wgLive.get_privgroup (.badRequest true) 9).2 = .error .wgDeleted) ∧
      ((wgLive.delete (.badRequest true) 9).1.deleted = true ∧
        (wgLive.delete (.badRequest true) 9).2 = some .wgDeleted)) := by
  refine ⟨rfl, rfl, ⟨by decide, by decide, by decide, by decide⟩, ?_⟩
  exact claim_C3_soft_delete_flips_flag wgLive "New description" .STAFF false .PRIVATE 9
    rfl rfl (by decide) (by decide) (by decide) (by decide)

/-- C4 (amended).  On a deleted Workgroup instance, every accessor and
operation except `deleted`, `name`, `client` and `last_refresh` raises
the terminal `EOFError`: the getters `description`, `last_update`,
`filter`, `privgroup`, `reusable`, `visibility`, `can_see_membership`,
`members` and `administrators`, plus `refresh`, `get_privgroup`, every
property setter, and `delete` — each with its state untouched.  (The
original claim also listed `last_refresh` among the raising accessors;
its source body is a bare return documented to remain readable after
deletion; see the counterexample.) -/
theorem claim_C4_deleted_is_terminal (wg : Workgroup) (v : String)
    (fv : WorkgroupFilter) (bv : Bool) (vv : WorkgroupVisibility)
    (resp : WgResponse) (presp : PrivgroupResponse) (now : Nat)
    (hdel : wg.deleted = true) :
    wg.description_get = .error .eofErr ∧
    wg.last_update_get = .error .eofErr ∧
    wg.filter_get = .error .eofErr ∧
    wg.privgroup_get = .error .eofErr ∧
    wg.reusable_get = .error .eofErr ∧
    wg.visibility_get = .error .eofErr ∧
    wg.can_see_membership_get = .error .eofErr ∧
    wg.members_get = .error .eofErr ∧
    wg.administrators_get = .error .eofErr ∧
    wg.refresh resp now = (wg, some .eofErr) ∧
    wg.get_privgroup presp now = (wg, .error .eofErr) ∧
    wg.description_set v resp now = (wg, some .eofErr) ∧
    wg.filter_set fv resp now = (wg, some .eofErr) ∧
    wg.privgroup_set bv resp now = (wg, some .eofErr) ∧
    wg.reusable_set bv resp now = (wg, some .eofErr) ∧
    wg.visibility_set vv resp now = (wg, some .eofErr) ∧
    wg.delete resp now = (wg, some .eofErr) := by
  simp [Workgroup.description_get, Workgroup.last_update_get, Workgroup.filter_get,
    Workgroup.privgroup_get, Workgroup.reusable_get, Workgroup.visibility_get,
    Workgroup.can_see_membership_get, Workgroup.members_get, Workgroup.administrators_get,
    Workgroup.refresh, Workgroup.get_privgroup, Workgroup.description_set,
    Workgroup.filter_set, Workgroup.privgroup_set, Workgroup.reusable_set,
    Workgroup.visibility_set, Workgroup.delete, hdel]

/-- The `wgLive` fixture after its deletion was discovered at time 42. -/
def wgDel : Workgroup :=
  { deleted := true, name := "test:wg", description := "A test workgroup",
    privgroup := true, reusable := true, visibility := .STANFORD, filter := .NONE,
    last_update := 7, last_refresh := 42, can_see_membership := true,
    members := .empty, administrators := .empty, calls := 1 }

/-- C4, counterexample to the claim as stated: on a deleted instance the
`last_refresh` accessor does not raise — its body is a bare return (the
source documents that after deletion it returns the deletion time). -/
theorem claim_C4_counterexample :
    wgDel.deleted_get = true ∧ wgDel.last_refresh_get = 42 := by
  constructor <;> rfl

/-- Witness for C4: the deleted fixture with concrete arguments for
every operation. -/
theorem claim_C4_deleted_is_terminal_witness :
    wgDel.deleted = true ∧
    (wgDel.description_get = .error .eofErr ∧
      wgDel.last_update_get = .error .eofErr ∧
      wgDel.filter_get = .error .eofErr ∧
      wgDel.privgroup_get = .error .eofErr ∧
      wgDel.reusable_get = .error .eofErr ∧
      wgDel.visibility_get = .error .eofErr ∧
      wgDel.can_see_membership_get = .error .eofErr ∧
      wgDel.members_get = .error .eofErr ∧
      wgDel.administrators_get = .error .eofErr ∧
      wgDel.refresh .serverError 9 = (wgDel, some .eofErr) ∧
      wgDel.get_privgroup .serverError 9 = (wgDel, .error .eofErr) ∧
      wgDel.description_set "x" .serverError 9 = (wgDel, some .eofErr) ∧
      wgDel.filter_set .NONE .serverError 9 = (wgDel, some .eofErr) ∧
      wgDel.privgroup_set true .serverError 9 = (wgDel, some .eofErr) ∧
      wgDel.reusable_set true .serverError 9 = (wgDel, some .eofErr) ∧
      wgDel.visibility_set .STANFORD .serverError 9 = (wgDel, some .eofErr) ∧
      wgDel.delete .serverError 9 = (wgDel, some .eofErr)) := by
  exact ⟨rfl, claim_C4_deleted_is_terminal wgDel "x" .NONE true .STANFORD
    .serverError .serverError 9 rfl⟩

/-- Splitting a member list succeeds with a non-zero total size exactly
when the list is non-empty. -/
theorem splitMembers_pos {l : List WorkgroupMemberJson} {s : WorkgroupMembershipSets}
    (h : splitMembers l = .ok s) : 0 < s.size ↔ l ≠ [] := by
  cases l with
  | nil =>
    simp only [splitMembers, Except.ok.injEq] at h
    subst h
    simp [WorkgroupMembershipSets.size, WorkgroupMembershipSets.empty]
  | cons m rest =>
    have hne : (m :: rest) ≠ [] := by simp
    refine ⟨fun _ => hne, fun _ => ?_⟩
    unfold splitMembers at h
    rcases hr : splitMembers rest with e | s0 <;> rw [hr] at h
    · simp at h
    · split_ifs at h with h1 h2 h3
      · simp only [Except.ok.injEq] at h
        subst h
        have hp := Finset.card_pos.mpr (Finset.insert_nonempty m.id s0.people)
        simp only [WorkgroupMembershipSets.size]
        omega
      · simp only [Except.ok.injEq] at h
        subst h
        have hp := Finset.card_pos.mpr (Finset.insert_nonempty m.id s0.workgroups)
        simp only [WorkgroupMembershipSets.size]
        omega
      · simp only [Except.ok.injEq] at h
        subst h
        have hp := Finset.card_pos.mpr (Finset.insert_nonempty m.id s0.certificates)
        simp only [WorkgroupMembershipSets.size]
        omega

/-- C5.  After a successful re-derivation from a server response (the
shared path of construction and refresh), under the documented server
invariant that a broadly-visible (STANFORD) workgroup always reports at
least one structural administrator, `can_see_membership` is true exactly
when the visibility is STANFORD, or the visibility is PRIVATE and the
returned administrator set is non-empty (the heuristic administrator
detection). -/
theorem claim_C5_can_see_membership (wg wg' : Workgroup) (json : WorkgroupJson) (now : Nat)
    (hrun : wg.from_json json now = (wg', none))
    (hstruct : wg'.visibility = .STANFORD → json.administrators ≠ []) :
    (wg'.can_see_membership = true ↔
      (wg'.visibility = .STANFORD ∨
        (wg'.visibility = .PRIVATE ∧ 0 < wg'.administrators.size))) := by
  unfold Workgroup.from_json at hrun
  rcases hv : WorkgroupVisibility.from_str json.visibility with e | vis <;> rw [hv] at hrun
  · simp at hrun
  · rcases hf : WorkgroupFilter.from_str json.filter with e | fil <;> rw [hf] at hrun
    · simp at hrun
    · rcases hm : splitMembers json.members with e | mem <;> rw [hm] at hrun
      · simp at hrun
      · rcases ha : splitMembers json.administrators with e | adm <;> rw [ha] at hrun
        · simp at hrun
        · simp only [Prod.mk.injEq, and_true] at hrun
          subst hrun
          have hsz := splitMembers_pos ha
          simp only [] at hstruct ⊢
          cases vis with
          | STANFORD =>
            have hpos : 0 < adm.size := hsz.mpr (hstruct rfl)
            simp [hpos]
          | PRIVATE =>
            simp [decide_eq_true_eq]

/-- The workgroup JSON returned for `test:wg` with one person
administrator and no members. -/
def wgJson0 : WorkgroupJson :=
  { name := "test:wg", description := some "d", privgroup := "TRUE", reusable := "TRUE",
    visibility := "STANFORD", filter := "NONE", lastUpdate := 8,
    members := [], administrators := [{ type := "PERSON", id := "admin" }] }

/-- The fixture `wgLive` re-derived from `wgJson0` at time 50. -/
def wgAfterJson0 : Workgroup :=
  { deleted := false, name := "test:wg", description := "d",
    privgroup := true, reusable := true, visibility := .STANFORD, filter := .NONE,
    last_update := 8, last_refresh := 50, can_see_membership := true,
    members := .empty, administrators := ⟨{"admin"}, ∅, ∅⟩, calls := 0 }

/-- Witness for C5: the concrete re-derivation of `wgLive` from
`wgJson0`. -/
theorem claim_C5_can_see_membership_witness :
    wgLive.from_json wgJson0 50 = (wgAfterJson0, none) ∧
    (wgAfterJson0.visibility = .STANFORD → wgJson0.administrators ≠ []) ∧
    (wgAfterJson0.can_see_membership = true ↔
      (wgAfterJson0.visibility = .STANFORD ∨
        (wgAfterJson0.visibility = .PRIVATE ∧ 0 < wgAfterJson0.administrators.size))) := by
  have hrun : wgLive.from_json wgJson0 50 = (wgAfterJson0, none) := by decide
  have hstruct : wgAfterJson0.visibility = .STANFORD → wgJson0.administrators ≠ [] := by
    decide
  exact ⟨hrun, hstruct, claim_C5_can_see_membership wgLive wgAfterJson0 wgJson0 50 hrun hstruct⟩

/-- C6.  Membership mutation contract: `add` of a locally-present
identifier fails with the duplicate `KeyError`; `add` of a fresh
identifier with a successful PUT succeeds, puts the identifier into the
local set and resets the last-update date of the owning workgroup; `add`
with any remote failure (400/500, 401/403, 404) leaves the local set
untouched; `discard` of a locally-absent identifier fails with the
not-present `KeyError`; `discard` with any remote failure leaves the
local set untouched. -/
theorem claim_C6_membership_mutation (cdup cnew : WorkgroupMembershipContainer)
    (wgd wgn : Workgroup) (vd vn : String) (r rf : MutResponse) (today : Nat)
    (hdup : vd ∈ cdup.ids) (hnew : vn ∉ cnew.ids)
    (hod : cdup.owner = some wgd) (hon : cnew.owner = some wgn)
    (hrf : rf ≠ .success) :
    cdup.add vd r today = (cdup, some .keyErr) ∧
    ((cnew.add vn .success today).2 = none ∧
      vn ∈ (cnew.add vn .success today).1.ids ∧
      ((cnew.add vn .success today).1.owner.map Workgroup.last_update) = some today) ∧
    ((cnew.add vn rf today).1.ids = cnew.ids ∧ (cnew.add vn rf today).2 ≠ none) ∧
    cnew.discard vn r today = (cnew, some .keyErr) ∧
    (cdup.discard vd rf today).1.ids = cdup.ids := by
  refine ⟨?_, ?_, ?_, ?_, ?_⟩
  · unfold WorkgroupMembershipContainer.add
    rw [if_pos hdup]
  · unfold WorkgroupMembershipContainer.add
    rw [if_neg hnew, hon]
    simp
  · unfold WorkgroupMembershipContainer.add
    rw [if_neg hnew, hon]
    cases rf <;> simp_all
  · unfold WorkgroupMembershipContainer.discard
    rw [if_pos (by simpa using hnew)]
  · unfold WorkgroupMembershipContainer.discard
    rw [if_neg (by simpa using hdup), hod]
    cases rf <;> simp_all

/-- The live container with an empty local set (fresh adds). -/
def contLiveEmpty : WorkgroupMembershipContainer :=
  { owner := some wgLive, ids := ∅, collection_type := "members",
    container_type := "USER" }

/-- Witness for C6: the live fixtures, a present and an absent
identifier, and a failing (500) response. -/
theorem claim_C6_membership_mutation_witness :
    "alice" ∈ contLive.ids ∧ "bob" ∉ contLiveEmpty.ids ∧
    contLive.owner = some wgLive ∧ contLiveEmpty.owner = some wgLive ∧
    MutResponse.serverError ≠ MutResponse.success ∧
    (contLive.add "alice" .success 5 = (contLive, some .keyErr) ∧
      ((contLiveEmpty.add "bob" .success 5).2 = none ∧
        "bob" ∈ (contLiveEmpty.add "bob" .success 5).1.ids ∧
        ((contLiveEmpty.add "bob" .success 5).1.owner.map Workgroup.last_update) = some 5) ∧
      ((contLiveEmpty.add "bob" .serverError 5).1.ids = contLiveEmpty.ids ∧
        (contLiveEmpty.add "bob" .serverError 5).2 ≠ none) ∧
      contLiveEmpty.discard "bob" .success 5 = (contLiveEmpty, some .keyErr) ∧
      (contLive.discard "alice" .serverError 5).1.ids = contLive.ids) := by
  refine ⟨by decide, by decide, rfl, rfl, by decide, ?_⟩
  exact claim_C6_membership_mutation contLive contLiveEmpty wgLive wgLive "alice" "bob"
    .success .serverError 5 (by decide) (by decide) rfl rfl (by decide)

/-- C7.  `delete` is idempotent-detecting: on an instance whose local
deleted flag is already true it raises `EOFError` with the state (and
so the request counter) untouched — no network call; on a live instance
whose remote DELETE returns 200, the flag becomes true, both membership
sets become empty, exactly one request was issued (no further remote
reads), and no error is raised. -/
theorem claim_C7_delete_idempotent (wg1 wg2 : Workgroup) (resp : WgResponse)
    (json : WorkgroupJson) (now : Nat)
    (h1 : wg1.deleted = true) (h2 : wg2.deleted = false) :
    wg1.delete resp now = (wg1, some .eofErr) ∧
    ((wg2.delete (.ok json) now).2 = none ∧
      (wg2.delete (.ok json) now).1.deleted = true ∧
      (wg2.delete (.ok json) now).1.members = .empty ∧
      (wg2.delete (.ok json) now).1.administrators = .empty ∧
      (wg2.delete (.ok json) now).1.calls = wg2.calls + 1) := by
  constructor
  · unfold Workgroup.delete
    rw [if_pos h1]
  · unfold Workgroup.delete
    rw [if_neg (by simp [h2])]
    simp [Workgroup.mark_deleted]

/-- Witness for C7: deleting the deleted fixture and the live fixture. -/
theorem claim_C7_delete_idempotent_witness :
    wgDel.deleted = true ∧ wgLive.deleted = false ∧
    (wgDel.delete (.ok wgJson0) 9 = (wgDel, some .eofErr) ∧
      ((wgLive.delete (.ok wgJson0) 9).2 = none ∧
        (wgLive.delete (.ok wgJson0) 9).1.deleted = true ∧
        (wgLive.delete (.ok wgJson0) 9).1.members = .empty ∧
        (wgLive.delete (.ok wgJson0) 9).1.administrators = .empty ∧
        (wgLive.delete (.ok wgJson0) 9).1.calls = wgLive.calls + 1)) := by
  exact ⟨rfl, rfl, claim_C7_delete_idempotent wgDel wgLive (.ok wgJson0) wgJson0 9 rfl rfl⟩

end StanfordMais
